import Mathlib

set_option maxRecDepth 1000000

/-!
# WeensyOS kernel (pset3) — verification of the spec's claims

A shallow embedding of `src/pset3/kernel.cc`: the physical page allocator
(`kalloc` / `kfree`), the virtual-memory syscalls (`syscall_page_alloc`,
`syscall_fork`, `sys_exit`), the scheduler (`schedule`) and the exception
dispatcher (`exception`).

The page-table walking machinery (`vmiter` / `ptiter`, from `k-vmiter.hh`) and
the memory-layout constants (from `kernel.hh` / `x86-64.h`) are not part of the
repository sources; those parts are modelled from the specification's
Address-Space Mapper contract (spec §4.2) and configuration constants (§6).
Everything else is translated directly from `kernel.cc`.

Machine integers are modelled as `Nat`; all the arithmetic below stays far from
2^64 so no wrap-around can occur in the source either.
-/

namespace Weensy

/-! ## Configuration constants (spec §6: "configuration, not protocol") -/

def PAGESIZE : Nat := 4096
def MEMSIZE_PHYSICAL : Nat := 0x200000
def NPAGES : Nat := MEMSIZE_PHYSICAL / PAGESIZE
def MEMSIZE_VIRTUAL : Nat := 0x300000
def PROC_START_ADDR : Nat := 0x100000
def CONSOLE_ADDR : Nat := 0xB8000
def MAXNPROC : Nat := 16

def PTE_P : Nat := 1
def PTE_W : Nat := 2
def PTE_U : Nat := 4

/-- Modelled from the spec: "the boundary below which memory is reserved for
kernel code/data and is never allocatable to processes" (§6); the allocator
"scans allocatable physical pages (excludes reserved/kernel-data ranges)"
(§4.1).  `allocatable_physical_address` itself lives in `kernel.hh`, which is
not among the repository sources. -/
def allocatable_physical_address (pa : Nat) : Bool :=
  decide (PROC_START_ADDR ≤ pa ∧ pa < MEMSIZE_PHYSICAL)

/-! ## Process descriptors -/

/-- `P_FREE` / `P_RUNNABLE` / `P_FAULTED` from `kernel.hh`. -/
inductive PState where
  | free
  | runnable
  | faulted
deriving DecidableEq, Repr

instance : BEq PState := ⟨fun a b => decide (a = b)⟩

instance : LawfulBEq PState where
  eq_of_beq h := of_decide_eq_true h
  rfl := decide_eq_true rfl

/-- The saved register snapshot.  Only the return-value register `rax`, the
instruction pointer and the stack pointer are named individually; every other
saved register is bundled into `rest` (they are only ever copied wholesale). -/
structure Regs where
  rax : Int
  rip : Nat
  rsp : Nat
  rest : Nat
deriving DecidableEq, Repr

/-- The register snapshot installed by `init_process` (from `k-hardware.cc`,
not among the sources).  Modelled from the spec: fork later overwrites the
whole snapshot with the parent's registers, so only the fact that
`init_process` resets the snapshot (and touches neither `state` nor
`pagetable`) matters. -/
def initRegs : Regs := ⟨0, 0, 0, 0⟩

/-! ## Page tables

An address space for virtual addresses below `MEMSIZE_VIRTUAL = 0x300000`
uses one top-level (L4) page, one L3 page, one L2 page and two L1 pages:
L1 "region 0" covers virtual addresses `[0, 0x200000)` and L1 "region 1"
covers `[0x200000, 0x400000)`.  Modelled from the spec's Address-Space Mapper
(§4.2): `map` installs one leaf mapping, "allocating intermediate page-table
levels on demand; FAIL only if an intermediate allocation fails"; the
structure walk (`ptiter`) "visits every intermediate page-table page". -/

structure PageTable where
  /-- page number of the top-level (L4) page -/
  top : Nat
  /-- page number of the L3 page, if allocated -/
  l3 : Option Nat
  /-- page number of the L2 page, if allocated -/
  l2 : Option Nat
  /-- page number of the L1 page covering region 0, if allocated -/
  l1a : Option Nat
  /-- page number of the L1 page covering region 1, if allocated -/
  l1b : Option Nat
  /-- leaf entries: virtual page number ↦ (physical address, permission bits);
  an entry is *present* iff its permissions have `PTE_P` set -/
  entries : Nat → Option (Nat × Nat)

/-- Which 2 MiB region (hence which L1 page) a virtual address needs. -/
def regionOf (va : Nat) : Nat := va / 0x200000

/-- vmiter `present()`: the entry at `vpn` exists and has `PTE_P` set. -/
def PageTable.presentAt (pt : PageTable) (vpn : Nat) : Bool :=
  match pt.entries vpn with
  | none => false
  | some (_, perm) => perm &&& PTE_P != 0

/-- vmiter `user()`: the entry at `vpn` has `PTE_U` set. -/
def PageTable.userAt (pt : PageTable) (vpn : Nat) : Bool :=
  match pt.entries vpn with
  | none => false
  | some (_, perm) => perm &&& PTE_U != 0

/-- vmiter `pa()`: physical address stored at `vpn` (0 if no entry). -/
def PageTable.paAt (pt : PageTable) (vpn : Nat) : Nat :=
  match pt.entries vpn with
  | none => 0
  | some (pa, _) => pa

/-- vmiter `perm()`: permission bits stored at `vpn` (0 if no entry). -/
def PageTable.permAt (pt : PageTable) (vpn : Nat) : Nat :=
  match pt.entries vpn with
  | none => 0
  | some (_, perm) => perm

/-- Overwrite the leaf entry for `vpn`. -/
def PageTable.setEntry (pt : PageTable) (vpn pa perm : Nat) : PageTable :=
  { pt with entries := fun v => if v = vpn then some (pa, perm) else pt.entries v }

/-- The intermediate page-table pages, as visited by `ptiter` (the structure
walk, which excludes the top-level page). -/
def PageTable.ptPages (pt : PageTable) : List Nat :=
  [pt.l3, pt.l2, pt.l1a, pt.l1b].filterMap id

/-- A page table whose intermediate structure is complete, so that any leaf
entry can be installed without allocating.  `process_setup` and every
successful fork build such tables (the stack mapping at the top of the
virtual address space forces the region-1 L1 into existence). -/
def PageTable.full (pt : PageTable) : Bool :=
  pt.l3.isSome && pt.l2.isSome && pt.l1a.isSome && pt.l1b.isSome

/-! ## Process table and kernel state -/

structure Proc where
  pid : Nat
  state : PState
  /-- `none` models the null `pagetable` pointer -/
  pagetable : Option PageTable
  regs : Regs

structure KState where
  /-- `physpages[n].refcount`, indexed by page number -/
  physpages : Nat → Nat
  /-- contents of physical memory: page number ↦ byte offset ↦ byte -/
  pagemem : Nat → Nat → Nat
  /-- `ptable`, indexed by pid; only indices `< MAXNPROC` are ever used -/
  ptable : Nat → Proc
  /-- index of `current` in `ptable` -/
  currentPid : Nat

def KState.setProc (st : KState) (i : Nat) (p : Proc) : KState :=
  { st with ptable := fun j => if j = i then p else st.ptable j }

def KState.setRef (st : KState) (pn c : Nat) : KState :=
  { st with physpages := fun q => if q = pn then c else st.physpages q }

/-- `memset(page, c, PAGESIZE)`. -/
def KState.memsetPage (st : KState) (pn c : Nat) : KState :=
  { st with pagemem := fun q => if q = pn then (fun _ => c) else st.pagemem q }

/-- `memcpy(dst_page, src_page, PAGESIZE)`. -/
def KState.copyPage (st : KState) (dst src : Nat) : KState :=
  { st with pagemem := fun q => if q = dst then st.pagemem src else st.pagemem q }

/-! ## `kalloc` and `kfree` (kernel.cc lines 126–187) -/

/-- The page-number search of `kalloc`'s loop: `pageno` starts at 0 and
advances by `page_increment = 1` for `NPAGES` tries, so it visits page numbers
`0, 1, …, NPAGES−1` in order and returns the first allocatable page whose
reference count is 0. -/
def kallocSearch (pp : Nat → Nat) : Option Nat :=
  (List.range NPAGES).find? fun pn =>
    allocatable_physical_address (pn * PAGESIZE) && pp pn == 0

/-- `kalloc(sz)`: returns the chosen page's physical address (`none` for the
null pointer) together with the updated state.  On success the page's
reference count goes from 0 to 1 and the page is filled with `0xCC`. -/
def kalloc (st : KState) (sz : Nat) : Option Nat × KState :=
  if sz > PAGESIZE then
    (none, st)
  else
    match kallocSearch st.physpages with
    | none => (none, st)
    | some pn =>
        (some (pn * PAGESIZE),
         ((st.setRef pn (st.physpages pn + 1)).memsetPage pn 0xCC))

/-- `kfree(kptr)`: `kptr = 0` models the null pointer. -/
def kfree (st : KState) (kptr : Nat) : KState :=
  -- Handle nullptr case
  if kptr = 0 then st
  -- Check if physical address is valid
  else if kptr ≥ MEMSIZE_PHYSICAL ∨ kptr % PAGESIZE ≠ 0 then st
  -- Guard against double frees
  else if st.physpages (kptr / PAGESIZE) = 0 then st
  else st.setRef (kptr / PAGESIZE) (st.physpages (kptr / PAGESIZE) - 1)

/-! ## `try_map` (the Address-Space Mapper's fallible mapping primitive)

Modelled from the spec (§4.2): "installs or overwrites one leaf mapping,
allocating intermediate page-table levels on demand; FAIL only if an
intermediate allocation fails". The missing levels for `va` are allocated in
walk order (L3, then L2, then the region's L1) via `kalloc`, each newly
allocated page-table page being zeroed; on an allocation failure the levels
already allocated stay in place (as in hardware page-table code) and the
result is −1 with the leaf entry unwritten. -/

/-- Install the leaf entry once all levels exist. -/
def tryMapLeaf (st : KState) (pt : PageTable) (va pa perm : Nat) :
    Int × PageTable × KState :=
  (0, pt.setEntry (va / PAGESIZE) pa perm, st)

/-- Ensure the L1 page covering `va`'s region, then install the leaf. -/
def tryMapL1 (st : KState) (pt : PageTable) (va pa perm : Nat) :
    Int × PageTable × KState :=
  if regionOf va = 0 then
    match pt.l1a with
    | some _ => tryMapLeaf st pt va pa perm
    | none =>
        match kalloc st PAGESIZE with
        | (none, st1) => (-1, pt, st1)
        | (some npa, st1) =>
            tryMapLeaf (st1.memsetPage (npa / PAGESIZE) 0)
              { pt with l1a := some (npa / PAGESIZE) } va pa perm
  else
    match pt.l1b with
    | some _ => tryMapLeaf st pt va pa perm
    | none =>
        match kalloc st PAGESIZE with
        | (none, st1) => (-1, pt, st1)
        | (some npa, st1) =>
            tryMapLeaf (st1.memsetPage (npa / PAGESIZE) 0)
              { pt with l1b := some (npa / PAGESIZE) } va pa perm

/-- Ensure the L2 page, then continue downward. -/
def tryMapL2 (st : KState) (pt : PageTable) (va pa perm : Nat) :
    Int × PageTable × KState :=
  match pt.l2 with
  | some _ => tryMapL1 st pt va pa perm
  | none =>
      match kalloc st PAGESIZE with
      | (none, st1) => (-1, pt, st1)
      | (some npa, st1) =>
          tryMapL1 (st1.memsetPage (npa / PAGESIZE) 0)
            { pt with l2 := some (npa / PAGESIZE) } va pa perm

/-- `vmiter(pt, va).try_map(pa, perm)`. -/
def try_map (st : KState) (pt : PageTable) (va pa perm : Nat) :
    Int × PageTable × KState :=
  match pt.l3 with
  | some _ => tryMapL2 st pt va pa perm
  | none =>
      match kalloc st PAGESIZE with
      | (none, st1) => (-1, pt, st1)
      | (some npa, st1) =>
          tryMapL2 (st1.memsetPage (npa / PAGESIZE) 0)
            { pt with l3 := some (npa / PAGESIZE) } va pa perm

/-- `kalloc_pagetable()` (from `kernel.hh`, not among the sources).
Modelled from the spec: allocates one page for a fresh, empty top-level table
and zeroes it; null on allocation failure. -/
def kalloc_pagetable (st : KState) : Option PageTable × KState :=
  match kalloc st PAGESIZE with
  | (none, st1) => (none, st1)
  | (some pa, st1) =>
      (some ⟨pa / PAGESIZE, none, none, none, none, fun _ => none⟩,
       st1.memsetPage (pa / PAGESIZE) 0)

/-! ## The user-region leaf walk

`vmiter it(pt, PROC_START_ADDR); !it.done(); it.next()` visits the leaf
mappings of the user region in ascending virtual-address order; modelled from
the spec (§4.2) as the list of user virtual page numbers
`PROC_START_ADDR / PAGESIZE … MEMSIZE_VIRTUAL / PAGESIZE − 1`. -/
def userVpns : List Nat :=
  List.range' (PROC_START_ADDR / PAGESIZE)
    (MEMSIZE_VIRTUAL / PAGESIZE - PROC_START_ADDR / PAGESIZE)

/-- The kernel-region walk of `process_setup` / `syscall_fork`:
`vmiter kit(kernel_pagetable, 0); kit.va() < PROC_START_ADDR; kit.next()`. -/
def kernelVpns : List Nat := List.range (PROC_START_ADDR / PAGESIZE)

/-- The kernel page table built by `kernel_start` (kernel.cc lines 64–82):
identity mappings with kernel-only permissions except the console page and the
user region, and no mapping at address 0. -/
def kernelPerm (addr : Nat) : Nat :=
  if addr = 0 then 0
  else if addr = CONSOLE_ADDR then PTE_P + PTE_W + PTE_U
  else if addr ≥ PROC_START_ADDR then PTE_P + PTE_W + PTE_U
  else PTE_P + PTE_W

/-! ## `free_pagetable_and_pages` (kernel.cc lines 460–475) -/

/-- The first loop of `free_pagetable_and_pages` / `sys_exit`: for every
present, user-accessible, non-console mapping in the walked range, `kfree` the
physical page and clear the mapping (`it.map(it.pa(), 0)`). -/
def freeUserLoop : List Nat → KState → PageTable → PageTable × KState
  | [], st, pt => (pt, st)
  | vpn :: rest, st, pt =>
      if pt.presentAt vpn && pt.userAt vpn && vpn * PAGESIZE != CONSOLE_ADDR then
        freeUserLoop rest (kfree st (pt.paAt vpn))
          (pt.setEntry vpn (pt.paAt vpn) 0)
      else
        freeUserLoop rest st pt

/-- The `ptiter` loop: free every intermediate page-table page. -/
def freePtPages (st : KState) (pt : PageTable) : KState :=
  pt.ptPages.foldl (fun s pn => kfree s (pn * PAGESIZE)) st

/-- `free_pagetable_and_pages(&ptable[i])`.  The `none` branch is unreachable:
the helper is only called on a process that owns a page table. -/
def free_pagetable_and_pages (st : KState) (i : Nat) : KState :=
  match (st.ptable i).pagetable with
  | none => st
  | some pt =>
      let (pt1, st1) := freeUserLoop userVpns st pt
      let st2 := freePtPages st1 pt1
      let st3 := kfree st2 (pt1.top * PAGESIZE)
      st3.setProc i { st3.ptable i with pagetable := none, state := .free }

/-! ## `sys_exit` (kernel.cc lines 578–602)

`sys_exit` tears the current process down exactly like
`free_pagetable_and_pages` (the loops are duplicated inline in the source),
then calls `schedule()` and never returns; the transfer to the scheduler is
recorded by the dispatcher below. -/

def sys_exit (st : KState) : KState :=
  match (st.ptable st.currentPid).pagetable with
  | none => st      -- unreachable: a running process owns a page table
  | some pt =>
      let (pt1, st1) := freeUserLoop userVpns st pt
      let st2 := freePtPages st1 pt1
      let st3 := kfree st2 (pt1.top * PAGESIZE)
      st3.setProc st.currentPid
        { st3.ptable st.currentPid with state := .free, pagetable := none }

/-! ## `syscall_page_alloc` (kernel.cc lines 428–458) -/

/-- The tail of `syscall_page_alloc`: `int r = it.try_map(kpage, …);
if (r != 0) { kfree(kpage); return -1; } return 0;`, with the in-place
page-table mutations stored back into slot `i`. -/
def pageAllocInstall (st : KState) (pt : PageTable) (i addr kpage : Nat) :
    Int × KState :=
  match try_map st pt addr kpage (PTE_P + PTE_W + PTE_U) with
  | (r, pt4, st4) =>
      if r ≠ 0 then
        -- If mapping fails, free the page
        (-1, (kfree st4 kpage).setProc i
              { (kfree st4 kpage).ptable i with pagetable := some pt4 })
      else
        (0, st4.setProc i { st4.ptable i with pagetable := some pt4 })

def syscall_page_alloc (st : KState) (addr : Nat) : Int × KState :=
  -- Check that address is in user region and properly aligned
  if addr < PROC_START_ADDR ∨ addr ≥ MEMSIZE_VIRTUAL ∨ addr % PAGESIZE ≠ 0 then
    (-1, st)
  else
    match (st.ptable st.currentPid).pagetable with
    | none => (-1, st)    -- unreachable: a running process owns a page table
    | some pt =>
        -- Allocate a physical page
        match kalloc st PAGESIZE with
        | (none, st1) => (-1, st1)
        | (some kpage, st1) =>
            -- If there was an old mapping, free it and unmap,
            -- then install the new mapping (`pageAllocInstall`)
            if pt.presentAt (addr / PAGESIZE) && pt.userAt (addr / PAGESIZE)
                && addr != CONSOLE_ADDR then
              pageAllocInstall
                (kfree (st1.memsetPage (kpage / PAGESIZE) 0)
                  (pt.paAt (addr / PAGESIZE)))
                (pt.setEntry (addr / PAGESIZE) (pt.paAt (addr / PAGESIZE)) 0)
                st.currentPid addr kpage
            else
              pageAllocInstall (st1.memsetPage (kpage / PAGESIZE) 0) pt
                st.currentPid addr kpage

/-! ## `syscall_fork` (kernel.cc lines 477–576) -/

/-- The free-slot search: lowest index `i` with `1 ≤ i < MAXNPROC` whose state
is `P_FREE`; 0 when none exists. -/
def forkFindFree (st : KState) : Nat :=
  match (List.range' 1 (MAXNPROC - 1)).find?
          (fun i => (st.ptable i).state == PState.free) with
  | some i => i
  | none => 0

/-- `kperm &= ~PTE_U`: clear the user bit. -/
def clearU (perm : Nat) : Nat := perm - (perm &&& PTE_U)

/-- The kernel-region copy loop of `syscall_fork` (lines 505–524): copy each
present kernel mapping into the child, stripping `PTE_U` except for the
console page; stop with failure as soon as a `try_map` fails. -/
def forkKernelLoop : List Nat → KState → PageTable → Bool × PageTable × KState
  | [], st, pt => (true, pt, st)
  | vpn :: rest, st, pt =>
      if kernelPerm (vpn * PAGESIZE) &&& PTE_P = 0 then forkKernelLoop rest st pt
      else
        match try_map st pt (vpn * PAGESIZE) (vpn * PAGESIZE)
                (if vpn * PAGESIZE ≠ CONSOLE_ADDR then
                  clearU (kernelPerm (vpn * PAGESIZE))
                 else kernelPerm (vpn * PAGESIZE)) with
        | (r, pt1, st1) =>
            if r ≠ 0 then (false, pt1, st1) else forkKernelLoop rest st1 pt1

/-- The user-region copy loop of `syscall_fork` (lines 527–568), walking the
parent's leaf mappings: skip non-present or non-user entries; for writable
non-console user mappings allocate a fresh page, copy the parent's page into
it and map it; for the rest map the parent's physical page and bump its
reference count.  Stops with failure as soon as an allocation or mapping
fails (note: on a `try_map` failure in the copy branch the freshly
allocated page is *not* freed — mirrored from the source). -/
def forkUserLoop (ptP : PageTable) :
    List Nat → KState → PageTable → Bool × PageTable × KState
  | [], st, pt => (true, pt, st)
  | vpn :: rest, st, pt =>
      if !(ptP.presentAt vpn) || !(ptP.userAt vpn) then
        forkUserLoop ptP rest st pt
      else
        if PROC_START_ADDR ≤ vpn * PAGESIZE ∧ ptP.permAt vpn &&& PTE_U ≠ 0
            ∧ ptP.permAt vpn &&& PTE_W ≠ 0 ∧ vpn * PAGESIZE ≠ CONSOLE_ADDR then
          -- Allocate new physical page for child
          match kalloc st PAGESIZE with
          | (none, st1) => (false, pt, st1)
          | (some npa, st1) =>
              -- Copy data from parent to child, then map the new page in the
              -- child's page table
              match try_map (st1.copyPage (npa / PAGESIZE) (ptP.paAt vpn / PAGESIZE))
                      pt (vpn * PAGESIZE) npa (ptP.permAt vpn) with
              | (r, pt3, st3) =>
                  if r ≠ 0 then (false, pt3, st3)
                  else forkUserLoop ptP rest st3 pt3
        else
          -- Share read-only/kernel pages
          match try_map st pt (vpn * PAGESIZE) (ptP.paAt vpn) (ptP.permAt vpn) with
          | (r, pt1, st1) =>
              if r ≠ 0 then (false, pt1, st1)
              else
                -- Bump the refcount
                forkUserLoop ptP rest
                  (st1.setRef (ptP.paAt vpn / PAGESIZE)
                    (st1.physpages (ptP.paAt vpn / PAGESIZE) + 1))
                  pt1

def syscall_fork (st : KState) : Int × KState :=
  -- Find a free slot; if no free slot found, return error
  if forkFindFree st = 0 then (-1, st)
  else
    match (st.ptable st.currentPid).pagetable with
    | none => (-1, st)  -- unreachable: a running process owns a page table
    | some ptP =>
        -- init_process resets the new process's registers, then a fresh page
        -- table is allocated for it
        match kalloc_pagetable
            (st.setProc (forkFindFree st)
              { st.ptable (forkFindFree st) with regs := initRegs }) with
        | (none, st1) =>
            (-1, st1.setProc (forkFindFree st)
                  { st1.ptable (forkFindFree st) with pagetable := none })
        | (some ptC, st1) =>
            -- free_proc->pagetable is assigned here; the model stores the
            -- evolving table back into the slot at every observation point
            match forkKernelLoop kernelVpns st1 ptC with
            | (false, ptC1, st2) =>
                (-1, free_pagetable_and_pages
                      (st2.setProc (forkFindFree st)
                        { st2.ptable (forkFindFree st) with
                            pagetable := some ptC1 })
                      (forkFindFree st))
            | (true, ptC1, st2) =>
                match forkUserLoop ptP userVpns st2 ptC1 with
                | (false, ptC2, st3) =>
                    (-1, free_pagetable_and_pages
                          (st3.setProc (forkFindFree st)
                            { st3.ptable (forkFindFree st) with
                                pagetable := some ptC2 })
                          (forkFindFree st))
                | (true, ptC2, st3) =>
                    -- Copy current registers to forked process, zero its
                    -- return value, mark it runnable
                    (Int.ofNat (forkFindFree st),
                     st3.setProc (forkFindFree st)
                      { st3.ptable (forkFindFree st) with
                          pagetable := some ptC2,
                          regs := { (st.ptable st.currentPid).regs with rax := 0 },
                          state := .runnable })

/-! ## `process_setup` (kernel.cc lines 195–271)

The program image is consumed through the external loader's interface
(spec §1: "enumerate loadable segments with virtual address, size, data,
writability").  `process_setup` asserts that every allocation and mapping
succeeds; an assertion failure halts the kernel, modelled as `none`. -/

structure Segment where
  va : Nat
  memSize : Nat
  dataSize : Nat
  writable : Bool
  data : Nat → Nat

structure Program where
  segs : List Segment
  entry : Nat

def round_down (a : Nat) : Nat := a / PAGESIZE * PAGESIZE
def round_up (a : Nat) : Nat := round_down (a + PAGESIZE - 1)

/-- Load one page of a segment: the page was just zeroed; the bytes of the
page that overlap the segment's initialized data (`[copy_lo, copy_hi)`) are
copied from the segment, the rest stay zero. -/
def loadSegPage (st : KState) (pn : Nat) (seg : Segment) (va : Nat) : KState :=
  let copy_lo := max va seg.va
  let copy_hi := min (va + PAGESIZE) (seg.va + seg.dataSize)
  { st with pagemem := fun q =>
      if q = pn then
        fun off =>
          if copy_lo ≤ va + off ∧ va + off < copy_hi then
            seg.data (va + off - seg.va)
          else 0
      else st.pagemem q }

/-- The per-page loop of one segment (kernel.cc lines 235–255): allocate and
zero a page, map it with the segment's permissions, copy the overlapping
initialized bytes. -/
def setupSegLoop (seg : Segment) :
    List Nat → KState → PageTable → Option (PageTable × KState)
  | [], st, pt => some (pt, st)
  | va :: rest, st, pt =>
      match kalloc st PAGESIZE with
      | (none, _) => none                  -- assert(kpage != nullptr)
      | (some kpage, st1) =>
          match try_map (st1.memsetPage (kpage / PAGESIZE) 0) pt va kpage
                  (PTE_P + PTE_U + (if seg.writable then PTE_W else 0)) with
          | (r, pt3, st3) =>
              if r ≠ 0 then none           -- `map` asserts success
              else setupSegLoop seg rest
                (loadSegPage st3 (kpage / PAGESIZE) seg va) pt3

/-- Iterate over each segment. -/
def setupSegsLoop :
    List Segment → KState → PageTable → Option (PageTable × KState)
  | [], st, pt => some (pt, st)
  | seg :: rest, st, pt =>
      let seg_lo := round_down seg.va
      let seg_hi := round_up (seg.va + seg.memSize)
      match setupSegLoop seg
              (List.range' seg_lo ((seg_hi - seg_lo) / PAGESIZE) PAGESIZE)
              st pt with
      | none => none
      | some (pt1, st1) => setupSegsLoop rest st1 pt1

def process_setup (st : KState) (pid : Nat) (pgm : Program) : Option KState :=
  -- init_process resets the register snapshot, then the process page table is
  -- initialized
  match kalloc_pagetable
      (st.setProc pid { st.ptable pid with regs := initRegs }) with
  | (none, _) => none                      -- assert(p->pagetable != nullptr)
  | (some pt, st1) =>
      -- p->pagetable is assigned, then the kernel region mappings are copied
      -- (`pit.map` asserts success)
      match forkKernelLoop kernelVpns
          (st1.setProc pid { st1.ptable pid with pagetable := some pt }) pt with
      | (false, _, _) => none
      | (true, pt2, st2) =>
          match setupSegsLoop pgm.segs st2 pt2 with
          | none => none
          | some (pt3, st3) =>
              -- Allocate & map one user stack page at MEMSIZE_VIRTUAL − PAGESIZE
              match kalloc st3 PAGESIZE with
              | (none, _) => none          -- assert(kpage != nullptr)
              | (some kpage, st4) =>
                  match try_map (st4.memsetPage (kpage / PAGESIZE) 0) pt3
                          (MEMSIZE_VIRTUAL - PAGESIZE) kpage
                          (PTE_P + PTE_W + PTE_U) with
                  | (r, pt6, st6) =>
                      if r ≠ 0 then none   -- `map` asserts success
                      else
                        -- Set stack pointer, entry point, mark runnable
                        some (st6.setProc pid
                          { st6.ptable pid with
                              pagetable := some pt6,
                              regs := { initRegs with
                                          rsp := MEMSIZE_VIRTUAL - PAGESIZE
                                                  + PAGESIZE,
                                          rip := pgm.entry },
                              state := .runnable })

/-! ## `schedule` (kernel.cc lines 608–624)

The loop advances `pid` cyclically and resumes the first `P_RUNNABLE` slot.
`findRunnable` is the loop unrolled for `fuel` iterations; since the process
table does not change while the loop spins, an unsuccessful scan of
`MAXNPROC` consecutive slots repeats forever, so `schedule` is modelled as the
scan capped at `MAXNPROC` steps, `none` meaning the loop spins forever. -/

def findRunnable (st : KState) : Nat → Nat → Option Nat
  | 0, _ => none
  | fuel + 1, pid =>
      let pid' := (pid + 1) % MAXNPROC
      if (st.ptable pid').state = PState.runnable then some pid'
      else findRunnable st fuel pid'

def schedule (st : KState) : Option Nat :=
  findRunnable st MAXNPROC st.currentPid

/-- One scheduler scan as a transition on the current pid: the resumed slot,
or `current` itself when the scan spins (no runnable slot). -/
def schedNext (st : KState) (c : Nat) : Nat :=
  (findRunnable st MAXNPROC c).getD c

/-- `k` scheduler scans in a row (the process table unchanged in between). -/
def schedIter (st : KState) (c k : Nat) : Nat :=
  (schedNext st)^[k] c

/-- The number of runnable process-table slots. -/
def runnableCount (st : KState) : Nat :=
  ((List.range MAXNPROC).filter
    (fun q => (st.ptable q).state == PState.runnable)).length

/-! ## The trap dispatcher (kernel.cc `exception`, lines 285–347, and
`syscall`, lines 371–420) -/

/-- What the dispatcher does after handling a trap (spec §9's design note:
"returning an action (resume-with-registers | invoke-scheduler | halt)"). -/
inductive Action where
  | resume (v : Int)
  | sched
  | halt
deriving DecidableEq, Repr

/-- Exception numbers (from `x86-64.h`, not among the sources; the values are
configuration). -/
def INT_TIMER : Nat := 32
def INT_PF : Nat := 14

/-- `exception(regs)` for the trap classes the claims mention: a timer
interrupt schedules; a page fault whose error code lacks `PTE_U` panics
(kernel fault ⇒ halt), otherwise marks the current process `P_FAULTED`; any
other exception panics.  The post-dispatch step resumes the current process
when it is still runnable and otherwise schedules. -/
def exception (st : KState) (intno errcode : Nat) : Action × KState :=
  if intno = INT_TIMER then
    (Action.sched, st)
  else if intno = INT_PF then
    if errcode &&& PTE_U = 0 then
      (Action.halt, st)   -- proc_panic: kernel page fault
    else
      let st1 := st.setProc st.currentPid
        { st.ptable st.currentPid with state := .faulted }
      -- post-dispatch: current is no longer runnable, so schedule
      (Action.sched, st1)
  else
    (Action.halt, st)     -- proc_panic: unhandled exception

/-- Syscall numbers (from `u-lib.hh`, not among the sources; the values are
configuration — the dispatcher only needs them to be distinct). -/
def SYSCALL_GETPID : Nat := 1
def SYSCALL_YIELD : Nat := 2
def SYSCALL_PAGE_ALLOC : Nat := 3
def SYSCALL_FORK : Nat := 4
def SYSCALL_EXIT : Nat := 5
def SYSCALL_PANIC : Nat := 6

/-- `syscall(regs)` dispatch on `regs->reg_rax` (kernel.cc lines 390–417),
with `reg_rdi` as the argument register. -/
def syscallStep (st : KState) (rax rdi : Nat) : Action × KState :=
  if rax = SYSCALL_PANIC then (Action.halt, st)
  else if rax = SYSCALL_GETPID then
    (Action.resume (Int.ofNat (st.ptable st.currentPid).pid), st)
  else if rax = SYSCALL_YIELD then
    let st1 := st.setProc st.currentPid
      { st.ptable st.currentPid with
          regs := { (st.ptable st.currentPid).regs with rax := 0 } }
    (Action.sched, st1)
  else if rax = SYSCALL_PAGE_ALLOC then
    let (r, st1) := syscall_page_alloc st rdi
    (Action.resume r, st1)
  else if rax = SYSCALL_FORK then
    let (r, st1) := syscall_fork st
    (Action.resume r, st1)
  else if rax = SYSCALL_EXIT then
    (Action.sched, sys_exit st)
  else (Action.halt, st)

/-! ## Concrete states used by witnesses and counterexamples -/

/-- A process page table with the full intermediate structure, one writable
user page (the stack, vpn 767 ↦ page 305) and one read-only user page
(vpn 256 ↦ page 306). -/
def ptW : PageTable :=
  ⟨300, some 301, some 302, some 303, some 304,
   fun vpn =>
     if vpn = 767 then some (305 * PAGESIZE, PTE_P + PTE_W + PTE_U)
     else if vpn = 256 then some (306 * PAGESIZE, PTE_P + PTE_U)
     else none⟩

/-- Reference counts for `stW`: pages 300–306 (the table pages and the two
user pages) have count 1, a generous pool of allocatable pages is free, and
the rest of the allocatable range is occupied. -/
def ppW : Nat → Nat := fun pn =>
  if 300 ≤ pn ∧ pn ≤ 306 then 1
  else if 256 ≤ pn ∧ pn < 300 then 0
  else if 307 ≤ pn ∧ pn < 512 then 0
  else 0

/-- A well-formed running state: process 1 is current and runnable with page
table `ptW`; every other slot is free. -/
def stW : KState :=
  { physpages := ppW
    pagemem := fun _ _ => 0
    ptable := fun j =>
      if j = 1 then ⟨1, .runnable, some ptW, ⟨7, 100, 200, 3⟩⟩
      else ⟨j, .free, none, initRegs⟩
    currentPid := 1 }

/-- Like `stW` but with reference count 1 on page 64 (physical address
0x40000, inside the kernel code/data range — not allocatable). -/
def stKern : KState :=
  { stW with physpages := fun pn => if pn = 64 then 1 else ppW pn }

/-- A parent whose only user mapping is the stack page (vpn 767 ↦ page 305),
with exactly five free allocatable pages (256–260): forking from here
allocates the child's top-level table, L3/L2/L1 pages and the stack copy, and
then fails to map the copy because no page is left for the region-1 L1. -/
def ptLeakParent : PageTable :=
  ⟨300, some 301, some 302, some 303, some 304,
   fun vpn => if vpn = 767 then some (305 * PAGESIZE, PTE_P + PTE_W + PTE_U)
              else none⟩

def ppLeak : Nat → Nat := fun pn =>
  if 256 ≤ pn ∧ pn < 261 then 0
  else if 300 ≤ pn ∧ pn ≤ 305 then 1
  else if 256 ≤ pn ∧ pn < 512 then 1
  else 0

def stLeak : KState :=
  { physpages := ppLeak
    pagemem := fun _ _ => 0
    ptable := fun j =>
      if j = 1 then ⟨1, .runnable, some ptLeakParent, ⟨7, 100, 200, 3⟩⟩
      else ⟨j, .free, none, initRegs⟩
    currentPid := 1 }

/-- Like `stW` but with a FAULTED process in slot 2 (still owning a page
table, as fault handling does not reclaim resources). -/
def ptF : PageTable :=
  ⟨310, some 311, some 312, some 313, some 314, fun _ => none⟩

def stF : KState :=
  { stW with ptable := fun j =>
      if j = 2 then ⟨2, .faulted, some ptF, initRegs⟩ else stW.ptable j }

/-- A parent's leaf mapping that the fork walk considers at all: present and
user-accessible (the walk skips everything else). -/
def presUser (ptP : PageTable) (v : Nat) : Prop :=
  ptP.presentAt v = true ∧ ptP.userAt v = true

instance (ptP : PageTable) (v : Nat) : Decidable (presUser ptP v) := by
  unfold presUser
  infer_instance

/-- The fork walk's copy condition (kernel.cc line 537): user-region, user
bit, writable, not the console. -/
def copyG (ptP : PageTable) (v : Nat) : Prop :=
  PROC_START_ADDR ≤ v * PAGESIZE ∧ ptP.permAt v &&& PTE_U ≠ 0
  ∧ ptP.permAt v &&& PTE_W ≠ 0 ∧ v * PAGESIZE ≠ CONSOLE_ADDR

instance (ptP : PageTable) (v : Nat) : Decidable (copyG ptP v) := by
  unfold copyG
  infer_instance

/-- How every allocation step during a fork relates the state before to the
state after: pages that were in use keep their count and their contents, and
no count ever decreases.  (`kalloc` only touches pages whose count is 0.) -/
def StepOK (st st' : KState) : Prop :=
  (∀ q, 0 < st.physpages q →
    st'.physpages q = st.physpages q ∧ st'.pagemem q = st.pagemem q)
  ∧ (∀ q, st.physpages q ≤ st'.physpages q)

/-- The descriptor/address-space invariant (spec §3): a descriptor is FREE
exactly when its address-space handle is null — equivalently, every RUNNABLE
or FAULTED descriptor owns a page table and every FREE descriptor owns none. -/
def Inv (st : KState) : Prop :=
  ∀ i, i < MAXNPROC →
    ((st.ptable i).state = PState.free ↔ (st.ptable i).pagetable.isNone = true)

instance (st : KState) : Decidable (Inv st) := by
  unfold Inv
  infer_instance

/-- The success contract of `syscall_fork` (claim C2) for a parent state `st`
whose current process owns page table `ptP`: the returned pid `i` is the
lowest FREE slot above 0; the child's slot holds a table `ptC2` in which
every present, user-accessible, writable, non-console parent mapping is
mapped at the same vpn to a freshly allocated page — distinct from the
parent's page — holding the same contents the parent's page had at fork
time, and every other present user mapping is mapped to the parent's own
page with its reference count incremented by exactly one; the child's
registers are the parent's with the return-value register forced to 0; and
the child is RUNNABLE. -/
def forkSpec (st : KState) (ptP : PageTable) : Prop :=
  ∃ i ptC2,
    (syscall_fork st).1 = Int.ofNat i
    ∧ 1 ≤ i ∧ i < MAXNPROC
    ∧ (st.ptable i).state = PState.free
    ∧ (∀ j, 1 ≤ j → j < i → (st.ptable j).state ≠ PState.free)
    ∧ ((syscall_fork st).2.ptable i).pagetable = some ptC2
    ∧ ((syscall_fork st).2.ptable i).state = PState.runnable
    ∧ ((syscall_fork st).2.ptable i).regs
        = { (st.ptable st.currentPid).regs with rax := 0 }
    ∧ ∀ v ∈ userVpns,
        (presUser ptP v → copyG ptP v →
          ∃ npa, ptC2.entries v = some (npa, ptP.permAt v)
            ∧ npa / PAGESIZE ≠ ptP.paAt v / PAGESIZE
            ∧ st.physpages (npa / PAGESIZE) = 0
            ∧ (syscall_fork st).2.physpages (npa / PAGESIZE) = 1
            ∧ (syscall_fork st).2.pagemem (npa / PAGESIZE)
                = st.pagemem (ptP.paAt v / PAGESIZE))
        ∧ (presUser ptP v → ¬copyG ptP v →
            ptC2.entries v = some (ptP.paAt v, ptP.permAt v)
            ∧ (syscall_fork st).2.physpages (ptP.paAt v / PAGESIZE)
                = st.physpages (ptP.paAt v / PAGESIZE) + 1)

/-! # Theorems -/

/-! ## The physical page allocator: claims C5, C6, C10 -/

theorem allocatable_iff (pa : Nat) :
    allocatable_physical_address pa = true ↔
      PROC_START_ADDR ≤ pa ∧ pa < MEMSIZE_PHYSICAL := by
  simp [allocatable_physical_address]

theorem allocatable_lt_NPAGES (pn : Nat)
    (h : allocatable_physical_address (pn * PAGESIZE) = true) : pn < NPAGES := by
  rw [allocatable_iff] at h
  have h2 := h.2
  simp only [MEMSIZE_PHYSICAL, PAGESIZE, NPAGES] at *
  omega

theorem kallocSearch_some (pp : Nat → Nat) (pn : Nat)
    (h : kallocSearch pp = some pn) :
    allocatable_physical_address (pn * PAGESIZE) = true ∧ pp pn = 0 := by
  have := List.find?_some h
  simp only [Bool.and_eq_true, beq_iff_eq] at this
  exact this

theorem kallocSearch_none_iff (pp : Nat → Nat) :
    kallocSearch pp = none ↔
      (∀ pn, allocatable_physical_address (pn * PAGESIZE) = true →
        pp pn ≠ 0) := by
  unfold kallocSearch
  rw [List.find?_eq_none]
  constructor
  · intro h pn halloc h0
    have hm : pn ∈ List.range NPAGES :=
      List.mem_range.mpr (allocatable_lt_NPAGES pn halloc)
    have := h pn hm
    simp only [Bool.and_eq_true, beq_iff_eq, not_and] at this
    exact this halloc h0
  · intro h pn _
    simp only [Bool.and_eq_true, beq_iff_eq, not_and]
    exact h pn

theorem kalloc_of_le (st : KState) (sz : Nat) (h : sz ≤ PAGESIZE) :
    kalloc st sz =
      match kallocSearch st.physpages with
      | none => (none, st)
      | some pn =>
          (some (pn * PAGESIZE),
           ((st.setRef pn (st.physpages pn + 1)).memsetPage pn 0xCC)) := by
  unfold kalloc
  rw [if_neg (by omega)]

/-- **C5**: `kalloc(sz)` fails when `sz` exceeds one page; for `sz ≤ PAGESIZE`
it behaves exactly like a full-page request (a request for less than one page
still consumes a full page), fails exactly when no allocatable page has
reference count 0, and otherwise returns an allocatable page whose reference
count it raises from 0 to 1 (leaving every other count unchanged) and whose
every byte it fills with the fixed non-zero pattern `0xCC`. -/
theorem C5_kalloc_spec (st : KState) (sz : Nat) :
    (PAGESIZE < sz → kalloc st sz = (none, st))
    ∧ (sz ≤ PAGESIZE →
        kalloc st sz = kalloc st PAGESIZE
        ∧ ((kalloc st sz).1 = none ↔
            ∀ pn, allocatable_physical_address (pn * PAGESIZE) = true →
              st.physpages pn ≠ 0)
        ∧ (∀ pa, (kalloc st sz).1 = some pa →
            allocatable_physical_address pa = true
            ∧ st.physpages (pa / PAGESIZE) = 0
            ∧ (kalloc st sz).2.physpages (pa / PAGESIZE) = 1
            ∧ (∀ q, q ≠ pa / PAGESIZE →
                (kalloc st sz).2.physpages q = st.physpages q)
            ∧ (∀ off, (kalloc st sz).2.pagemem (pa / PAGESIZE) off = 0xCC)
            ∧ (0xCC : Nat) ≠ 0)) := by
  constructor
  · intro h
    unfold kalloc
    rw [if_pos (by omega)]
  · intro h
    rw [kalloc_of_le st sz h, kalloc_of_le st PAGESIZE le_rfl]
    refine ⟨rfl, ?_, ?_⟩
    · cases hs : kallocSearch st.physpages with
      | none => simpa using (kallocSearch_none_iff st.physpages).mp hs
      | some pn =>
          simp only [hs]
          constructor
          · intro hc; exact absurd hc (by simp)
          · intro hall
            have := kallocSearch_some st.physpages pn hs
            exact absurd this.2 (hall pn this.1)
    · intro pa hpa
      cases hs : kallocSearch st.physpages with
      | none => rw [hs] at hpa; simp at hpa
      | some pn =>
          rw [hs] at hpa
          simp only [Option.some.injEq] at hpa
          subst hpa
          obtain ⟨halloc, h0⟩ := kallocSearch_some st.physpages pn hs
          have hdiv : pn * PAGESIZE / PAGESIZE = pn :=
            Nat.mul_div_cancel pn (by norm_num [PAGESIZE])
          refine ⟨halloc, by rw [hdiv]; exact h0, ?_, ?_, ?_, by norm_num⟩
          · simp [hdiv, KState.setRef, KState.memsetPage, h0]
          · intro q hq
            rw [hdiv] at hq
            simp [KState.setRef, KState.memsetPage, hq]
          · intro off
            simp [hdiv, KState.setRef, KState.memsetPage]

/-- Witness for C5 at a concrete state: a 100-byte request in `stW` succeeds
with the allocatable page at 0x100000, raising its count from 0 to 1. -/
theorem C5_kalloc_spec_witness :
    (kalloc stW 100).1 = some (256 * PAGESIZE) ∧
    allocatable_physical_address (256 * PAGESIZE) = true ∧
    stW.physpages 256 = 0 ∧
    (kalloc stW 100).2.physpages 256 = 1 ∧
    (kalloc stW 100).2.pagemem 256 5 = 0xCC := by
  have h1 : (kalloc stW 100).1 = some (256 * PAGESIZE) := by decide
  have h := ((C5_kalloc_spec stW 100).2 (by norm_num [PAGESIZE])).2.2
    (256 * PAGESIZE) h1
  have hdiv : 256 * PAGESIZE / PAGESIZE = 256 :=
    Nat.mul_div_cancel 256 (by norm_num [PAGESIZE])
  rw [hdiv] at h
  exact ⟨h1, h.1, h.2.1, h.2.2.1, h.2.2.2.2.1 5⟩

/-- The exact no-op/decrement characterization of `kfree` (the amended C6). -/
theorem kfree_characterization (st : KState) (kptr : Nat) :
    (kptr = 0 → kfree st kptr = st)
    ∧ (MEMSIZE_PHYSICAL ≤ kptr → kfree st kptr = st)
    ∧ (kptr % PAGESIZE ≠ 0 → kfree st kptr = st)
    ∧ (st.physpages (kptr / PAGESIZE) = 0 → kfree st kptr = st)
    ∧ (kptr ≠ 0 → kptr < MEMSIZE_PHYSICAL → kptr % PAGESIZE = 0 →
        st.physpages (kptr / PAGESIZE) ≠ 0 →
        (kfree st kptr).physpages (kptr / PAGESIZE)
            = st.physpages (kptr / PAGESIZE) - 1
        ∧ (∀ q, q ≠ kptr / PAGESIZE →
            (kfree st kptr).physpages q = st.physpages q)) := by
  refine ⟨?_, ?_, ?_, ?_, ?_⟩
  · intro h; simp [kfree, h]
  · intro h
    have h0 : kptr ≠ 0 := by
      intro h0; rw [h0] at h; norm_num [MEMSIZE_PHYSICAL] at h
    unfold kfree
    rw [if_neg h0, if_pos (Or.inl h)]
  · intro h
    unfold kfree
    by_cases h0 : kptr = 0
    · rw [if_pos h0]
    · rw [if_neg h0, if_pos (Or.inr h)]
  · intro h
    unfold kfree
    by_cases h0 : kptr = 0
    · rw [if_pos h0]
    · rw [if_neg h0]
      by_cases h1 : kptr ≥ MEMSIZE_PHYSICAL ∨ kptr % PAGESIZE ≠ 0
      · rw [if_pos h1]
      · rw [if_neg h1, if_pos h]
  · intro h0 h1 h2 h3
    unfold kfree
    rw [if_neg h0,
        if_neg (not_or.mpr ⟨not_le.mpr h1, fun hn => hn h2⟩),
        if_neg h3]
    constructor
    · simp [KState.setRef]
    · intro q hq; simp [KState.setRef, hq]

/-- Counterexample to **C6** as stated: physical address 0x40000 lies in the
kernel code/data range, outside the allocatable range, yet `kfree` on it with
a positive reference count is not a no-op — the count drops from 1 to 0. -/
theorem C6_counterexample :
    allocatable_physical_address 0x40000 = false
    ∧ stKern.physpages (0x40000 / PAGESIZE) = 1
    ∧ (kfree stKern 0x40000).physpages (0x40000 / PAGESIZE) = 0 := by
  refine ⟨by decide, by decide, by decide⟩

/-- **C6 (amended)**: `kfree` is a no-op on the null pointer, on a page whose
reference count is already 0, and on any address that is out of physical
memory or not page-aligned; on any *page-aligned in-memory* address with a
positive reference count — allocatable or not — it decrements that page's
count by exactly one and changes no other count. -/
theorem C6_kfree_amended (st : KState) (kptr : Nat) :
    (kptr = 0 → kfree st kptr = st)
    ∧ (MEMSIZE_PHYSICAL ≤ kptr → kfree st kptr = st)
    ∧ (kptr % PAGESIZE ≠ 0 → kfree st kptr = st)
    ∧ (st.physpages (kptr / PAGESIZE) = 0 → kfree st kptr = st)
    ∧ (kptr ≠ 0 → kptr < MEMSIZE_PHYSICAL → kptr % PAGESIZE = 0 →
        st.physpages (kptr / PAGESIZE) ≠ 0 →
        (kfree st kptr).physpages (kptr / PAGESIZE)
            = st.physpages (kptr / PAGESIZE) - 1
        ∧ (∀ q, q ≠ kptr / PAGESIZE →
            (kfree st kptr).physpages q = st.physpages q)) :=
  kfree_characterization st kptr

/-- Witness for the amended C6: freeing the mapped stack page of `stW`
decrements its count from 1 to 0; freeing a refcount-0 page is a no-op. -/
theorem C6_kfree_amended_witness :
    (kfree stW (305 * PAGESIZE)).physpages 305 = stW.physpages 305 - 1
    ∧ kfree stW (256 * PAGESIZE) = stW := by
  constructor
  · have h := (C6_kfree_amended stW (305 * PAGESIZE)).2.2.2.2
      (by decide) (by decide) (by decide) (by decide)
    have hdiv : 305 * PAGESIZE / PAGESIZE = 305 :=
      Nat.mul_div_cancel 305 (by norm_num [PAGESIZE])
    rw [hdiv] at h
    exact h.1
  · exact (C6_kfree_amended stW (256 * PAGESIZE)).2.2.2.1 (by decide)

/-- **C10**: `kfree` on any non-page-aligned address is a no-op on the whole
kernel state, and conversely any call that changes anything was on a
page-aligned address: only exact page starts ever decrement a count. -/
theorem C10_kfree_unaligned_noop (st : KState) (kptr : Nat) :
    (kptr % PAGESIZE ≠ 0 → kfree st kptr = st)
    ∧ (kfree st kptr ≠ st → kptr % PAGESIZE = 0) := by
  constructor
  · intro h; exact (kfree_characterization st kptr).2.2.1 h
  · intro h
    by_contra hne
    exact h ((kfree_characterization st kptr).2.2.1 hne)

/-- Witness for C10: freeing an address one byte into the mapped stack page
of `stW` (a page `kalloc` could have returned) changes nothing. -/
theorem C10_kfree_unaligned_noop_witness :
    kfree stW (305 * PAGESIZE + 1) = stW :=
  (C10_kfree_unaligned_noop stW (305 * PAGESIZE + 1)).1 (by decide)

/-! ## The scheduler: claim C7 -/

theorem MAXNPROC_pos : 0 < MAXNPROC := by norm_num [MAXNPROC]

/-- Restarting the scan from `(c+1) % MAXNPROC` shifts scan positions by 1. -/
theorem scan_shift (c j : Nat) :
    ((c + 1) % MAXNPROC + 1 + j) % MAXNPROC = (c + 1 + (j + 1)) % MAXNPROC := by
  have h1 : (c + 1) % MAXNPROC + 1 + j = (c + 1) % MAXNPROC + (1 + j) := by omega
  have h2 : c + 1 + (j + 1) = c + 1 + (1 + j) := by omega
  rw [h1, h2, Nat.mod_add_mod]

/-- A successful scan returns the *first* runnable slot in cyclic order. -/
theorem findRunnable_first (st : KState) :
    ∀ fuel c p, findRunnable st fuel c = some p →
      ∃ j < fuel, p = (c + 1 + j) % MAXNPROC
        ∧ (st.ptable p).state = PState.runnable
        ∧ ∀ j' < j,
            (st.ptable ((c + 1 + j') % MAXNPROC)).state ≠ PState.runnable := by
  intro fuel
  induction fuel with
  | zero => intro c p h; simp [findRunnable] at h
  | succ f ih =>
      intro c p h
      rw [findRunnable] at h
      by_cases hr : (st.ptable ((c + 1) % MAXNPROC)).state = PState.runnable
      · rw [if_pos hr] at h
        obtain rfl : (c + 1) % MAXNPROC = p := by simpa using h
        exact ⟨0, by omega, by simp, hr, by omega⟩
      · rw [if_neg hr] at h
        obtain ⟨j, hj, hp, hrun, hfirst⟩ := ih ((c + 1) % MAXNPROC) p h
        refine ⟨j + 1, by omega, by rw [hp, scan_shift], hrun, ?_⟩
        intro j' hj'
        match j' with
        | 0 => simpa using hr
        | j'' + 1 =>
            rw [← scan_shift]
            exact hfirst j'' (by omega)

/-- When no slot is runnable the scan loop never resumes anything, whatever
the iteration count: the scheduler spins forever. -/
theorem findRunnable_none (st : KState)
    (h : ∀ q < MAXNPROC, (st.ptable q).state ≠ PState.runnable) :
    ∀ fuel c, findRunnable st fuel c = none := by
  intro fuel
  induction fuel with
  | zero => intro c; rfl
  | succ f ih =>
      intro c
      rw [findRunnable,
          if_neg (h ((c + 1) % MAXNPROC) (Nat.mod_lt _ MAXNPROC_pos)), ih]

/-- A scan with enough fuel to reach a runnable slot succeeds. -/
theorem findRunnable_isSome (st : KState) :
    ∀ fuel c j p, j < fuel → p = (c + 1 + j) % MAXNPROC →
      (st.ptable p).state = PState.runnable →
      ∃ r, findRunnable st fuel c = some r := by
  intro fuel
  induction fuel with
  | zero => intro c j p hj; omega
  | succ f ih =>
      intro c j p hj hp hrun
      rw [findRunnable]
      by_cases hr : (st.ptable ((c + 1) % MAXNPROC)).state = PState.runnable
      · exact ⟨_, by rw [if_pos hr]⟩
      · rw [if_neg hr]
        match j with
        | 0 => exact absurd hrun (by simpa [hp] using hr)
        | j'' + 1 =>
            exact ih ((c + 1) % MAXNPROC) j'' p (by omega)
              (by rw [hp, scan_shift]) hrun

/-- Scanning one full turn of the table hits each slot once, so counting
runnable slots along the scan counts the runnable processes. -/
theorem countP_scan_eq_runnableCount (st : KState) (c : Nat) :
    ((List.range MAXNPROC).countP
      (fun i => (st.ptable ((c + 1 + i) % MAXNPROC)).state == PState.runnable))
    = runnableCount st := by
  have hmap : ((List.range MAXNPROC).map (fun i => (c + 1 + i) % MAXNPROC)).countP
        (fun q => (st.ptable q).state == PState.runnable)
      = (List.range MAXNPROC).countP
          (fun i => (st.ptable ((c + 1 + i) % MAXNPROC)).state == PState.runnable) := by
    rw [List.countP_map]; rfl
  have hnodup : ((List.range MAXNPROC).map
      (fun i => (c + 1 + i) % MAXNPROC)).Nodup := by
    refine List.Nodup.map_on ?_ (List.nodup_range MAXNPROC)
    intro x hx y hy hxy
    rw [List.mem_range] at hx hy
    have h5 : x % MAXNPROC = y % MAXNPROC :=
      Nat.ModEq.add_left_cancel' (c + 1) hxy
    rwa [Nat.mod_eq_of_lt hx, Nat.mod_eq_of_lt hy] at h5
  have hperm : ((List.range MAXNPROC).map (fun i => (c + 1 + i) % MAXNPROC)).Perm
      (List.range MAXNPROC) := by
    refine (List.perm_ext_iff_of_nodup hnodup (List.nodup_range MAXNPROC)).mpr ?_
    intro q
    constructor
    · intro hq
      obtain ⟨i, _, rfl⟩ := List.mem_map.mp hq
      exact List.mem_range.mpr (Nat.mod_lt _ MAXNPROC_pos)
    · intro hq
      rw [List.mem_range] at hq
      have hcm : (c + 1) % MAXNPROC < MAXNPROC := Nat.mod_lt _ MAXNPROC_pos
      refine List.mem_map.mpr
        ⟨(q + MAXNPROC - (c + 1) % MAXNPROC) % MAXNPROC,
         List.mem_range.mpr (Nat.mod_lt _ MAXNPROC_pos), ?_⟩
      rw [← Nat.mod_add_mod, Nat.add_mod_mod,
          show (c + 1) % MAXNPROC + (q + MAXNPROC - (c + 1) % MAXNPROC)
              = q + MAXNPROC by omega,
          Nat.add_mod_right, Nat.mod_eq_of_lt hq]
  rw [← hmap, hperm.countP_eq, runnableCount, List.countP_eq_length_filter]

/-- Splitting the count of runnable scan positions at the first runnable
position `jr`: one for `jr` itself, none before it, and the rest are the
runnable positions of the scan restarted from the slot at `jr`. -/
theorem countP_scan_split (st : KState) (c jr j : Nat) (hjrj : jr < j)
    (hfirst : ∀ i < jr,
      (st.ptable ((c + 1 + i) % MAXNPROC)).state ≠ PState.runnable)
    (hjr : (st.ptable ((c + 1 + jr) % MAXNPROC)).state = PState.runnable) :
    (List.range (j + 1)).countP
        (fun i => (st.ptable ((c + 1 + i) % MAXNPROC)).state == PState.runnable)
      = (List.range (j - jr - 1 + 1)).countP
          (fun i => (st.ptable (((c + 1 + jr) % MAXNPROC + 1 + i) % MAXNPROC)).state
            == PState.runnable) + 1 := by
  have hsplit : j + 1 = (jr + 1) + (j - jr) := by omega
  rw [hsplit, List.range_add, List.countP_append, List.range_succ,
      List.countP_append, List.countP_map]
  have h0 : (List.range jr).countP
      (fun i => (st.ptable ((c + 1 + i) % MAXNPROC)).state == PState.runnable)
      = 0 := by
    rw [List.countP_eq_zero]
    intro i hi
    rw [List.mem_range] at hi
    simpa using hfirst i hi
  have h1 : ([jr].countP
      (fun i => (st.ptable ((c + 1 + i) % MAXNPROC)).state == PState.runnable))
      = 1 := by
    simp [List.countP_cons, hjr]
  have h2 : (List.range (j - jr)).countP
      ((fun i => (st.ptable ((c + 1 + i) % MAXNPROC)).state == PState.runnable)
        ∘ (fun x => jr + 1 + x))
      = (List.range (j - jr - 1 + 1)).countP
          (fun i => (st.ptable (((c + 1 + jr) % MAXNPROC + 1 + i) % MAXNPROC)).state
            == PState.runnable) := by
    have hr : j - jr = j - jr - 1 + 1 := by omega
    rw [← hr]
    refine List.countP_congr ?_
    intro i _
    have harg : ((c + 1 + jr) % MAXNPROC + 1 + i) % MAXNPROC
        = (c + 1 + (jr + 1 + i)) % MAXNPROC := by
      have e1 : (c + 1 + jr) % MAXNPROC + 1 + i
          = (c + 1 + jr) % MAXNPROC + (1 + i) := by omega
      have e2 : c + 1 + (jr + 1 + i) = c + 1 + jr + (1 + i) := by omega
      rw [e1, e2, Nat.mod_add_mod]
    simp only [Function.comp_apply, harg]
  rw [h0, h1, h2]
  omega

/-- Round-robin fairness: a runnable slot `p` at scan position `j` from `c`
is resumed after at most as many scans as there are runnable slots at
positions up to `j`. -/
theorem sched_reach (st : KState) :
    ∀ j c p, (st.ptable p).state = PState.runnable →
      p = (c + 1 + j) % MAXNPROC → j < MAXNPROC →
      ∃ k, 1 ≤ k
        ∧ k ≤ (List.range (j + 1)).countP
              (fun i => (st.ptable ((c + 1 + i) % MAXNPROC)).state
                == PState.runnable)
        ∧ schedIter st c k = p := by
  intro j
  induction j using Nat.strong_induction_on with
  | _ j ih =>
      intro c p hrun hp hjM
      obtain ⟨r, hr⟩ := findRunnable_isSome st MAXNPROC c j p hjM hp hrun
      obtain ⟨jr, hjr, hreq, hrrun, hfirst⟩ := findRunnable_first st MAXNPROC c r hr
      by_cases hrp : r = p
      · subst hrp
        refine ⟨1, le_rfl, ?_, ?_⟩
        · have hQ : (st.ptable ((c + 1 + j) % MAXNPROC)).state
              == PState.runnable := by
            rw [← hp]; exact beq_iff_eq.mpr hrun
          have : 0 < (List.range (j + 1)).countP
              (fun i => (st.ptable ((c + 1 + i) % MAXNPROC)).state
                == PState.runnable) :=
            List.countP_pos_iff.mpr ⟨j, List.mem_range.mpr (by omega), hQ⟩
          omega
        · simp [schedIter, schedNext, hr]
      · have hjrj : jr < j := by
          rcases Nat.lt_trichotomy jr j with h | h | h
          · exact h
          · exact absurd (by rw [hreq, h, ← hp]) hrp
          · exact absurd hrun (by rw [hp]; exact hfirst j h)
        have hp' : p = (r + 1 + (j - jr - 1)) % MAXNPROC := by
          have e1 : r + 1 + (j - jr - 1) = r + (1 + (j - jr - 1)) := by omega
          rw [hreq] at e1 ⊢
          rw [e1, Nat.mod_add_mod,
              show c + 1 + jr + (1 + (j - jr - 1)) = c + 1 + j by omega]
          exact hp
        obtain ⟨k', hk1, hk2, hk3⟩ := ih (j - jr - 1) (by omega) r p hrun
          hp' (by omega)
        refine ⟨k' + 1, by omega, ?_, ?_⟩
        · have hcount := countP_scan_split st c jr j hjrj hfirst
            (by rw [← hreq]; exact hrrun)
          rw [hcount, ← hreq]
          omega
        · rw [schedIter, Function.iterate_succ_apply,
              show schedNext st c = r by simp [schedNext, hr]]
          exact hk3

/-- **C7**: the scheduler resumes exactly the first RUNNABLE slot in the
cyclic scan starting after the current process and never a slot in any other
state; with `runnableCount st` runnable processes, each runnable slot is
resumed within `runnableCount st` scans; and when no slot is RUNNABLE, the
scan loop returns nothing however long it spins. -/
theorem C7_schedule_round_robin (st : KState) :
    (∀ p, schedule st = some p →
      (st.ptable p).state = PState.runnable
      ∧ ∃ j < MAXNPROC, p = (st.currentPid + 1 + j) % MAXNPROC
          ∧ ∀ j' < j,
              (st.ptable ((st.currentPid + 1 + j') % MAXNPROC)).state
                ≠ PState.runnable)
    ∧ ((∀ q < MAXNPROC, (st.ptable q).state ≠ PState.runnable) →
        ∀ fuel pid, findRunnable st fuel pid = none)
    ∧ (∀ p, p < MAXNPROC → (st.ptable p).state = PState.runnable →
        ∃ k, 1 ≤ k ∧ k ≤ runnableCount st
          ∧ schedIter st st.currentPid k = p) := by
  refine ⟨?_, ?_, ?_⟩
  · intro p hp
    obtain ⟨j, hj, hpe, hrun, hfirst⟩ :=
      findRunnable_first st MAXNPROC st.currentPid p hp
    exact ⟨hrun, j, hj, hpe, hfirst⟩
  · intro h fuel pid
    exact findRunnable_none st h fuel pid
  · intro p hpM hrun
    set c := st.currentPid
    have hcm : (c + 1) % MAXNPROC < MAXNPROC := Nat.mod_lt _ MAXNPROC_pos
    -- p sits at scan position j := (p + MAXNPROC - (c+1) % MAXNPROC) % MAXNPROC
    obtain ⟨j, hjM, hpj⟩ : ∃ j, j < MAXNPROC ∧ p = (c + 1 + j) % MAXNPROC := by
      refine ⟨(p + MAXNPROC - (c + 1) % MAXNPROC) % MAXNPROC,
        Nat.mod_lt _ MAXNPROC_pos, ?_⟩
      rw [← Nat.mod_add_mod, Nat.add_mod_mod,
          show (c + 1) % MAXNPROC + (p + MAXNPROC - (c + 1) % MAXNPROC)
              = p + MAXNPROC by omega,
          Nat.add_mod_right, Nat.mod_eq_of_lt hpM]
    obtain ⟨k, hk1, hk2, hk3⟩ := sched_reach st j c p hrun hpj hjM
    refine ⟨k, hk1, ?_, hk3⟩
    calc k ≤ (List.range (j + 1)).countP
          (fun i => (st.ptable ((c + 1 + i) % MAXNPROC)).state
            == PState.runnable) := hk2
      _ ≤ (List.range MAXNPROC).countP
          (fun i => (st.ptable ((c + 1 + i) % MAXNPROC)).state
            == PState.runnable) :=
        List.Sublist.countP_le _ ((List.range_sublist).mpr (by omega))
      _ = runnableCount st := countP_scan_eq_runnableCount st c

/-- Witness for C7 at `stW`: process 1 is the only runnable slot and the
scheduler, scanning from slot 1, reaches it within `runnableCount stW = 1`
scans; moreover a concrete `schedule` run resumes exactly slot 1. -/
theorem C7_schedule_round_robin_witness :
    (stW.ptable 1).state = PState.runnable
    ∧ (∃ k, 1 ≤ k ∧ k ≤ runnableCount stW
        ∧ schedIter stW stW.currentPid k = 1)
    ∧ (schedule stW = some 1 → (stW.ptable 1).state = PState.runnable) := by
  refine ⟨by decide, (C7_schedule_round_robin stW).2.2 1 (by decide) (by decide), ?_⟩
  intro h
  exact ((C7_schedule_round_robin stW).1 1 h).1

/-! ## Footprint lemmas: which state components each operation can touch -/

theorem kalloc_ptable (st : KState) (sz : Nat) :
    (kalloc st sz).2.ptable = st.ptable := by
  unfold kalloc
  split
  · rfl
  · split <;> rfl

theorem kalloc_currentPid (st : KState) (sz : Nat) :
    (kalloc st sz).2.currentPid = st.currentPid := by
  unfold kalloc
  split
  · rfl
  · split <;> rfl

theorem kfree_ptable (st : KState) (kptr : Nat) :
    (kfree st kptr).ptable = st.ptable := by
  unfold kfree
  split
  · rfl
  · split
    · rfl
    · split <;> rfl

theorem kfree_currentPid (st : KState) (kptr : Nat) :
    (kfree st kptr).currentPid = st.currentPid := by
  unfold kfree
  split
  · rfl
  · split
    · rfl
    · split <;> rfl

theorem kfree_physpages_ne (st : KState) (kptr q : Nat)
    (h : q ≠ kptr / PAGESIZE) :
    (kfree st kptr).physpages q = st.physpages q := by
  unfold kfree
  split
  · rfl
  · split
    · rfl
    · split
      · rfl
      · simp [KState.setRef, if_neg h]

theorem kfree_pagemem (st : KState) (kptr : Nat) :
    (kfree st kptr).pagemem = st.pagemem := by
  unfold kfree
  split
  · rfl
  · split
    · rfl
    · split <;> rfl

theorem tryMapLeaf_st (st : KState) (pt : PageTable) (va pa perm : Nat) :
    (tryMapLeaf st pt va pa perm).2.2 = st := rfl

theorem tryMapL1_ptable (st : KState) (pt : PageTable) (va pa perm : Nat) :
    (tryMapL1 st pt va pa perm).2.2.ptable = st.ptable := by
  unfold tryMapL1
  split
  · split
    · rfl
    · split
      · rename_i st1 heq
        have h := kalloc_ptable st PAGESIZE
        rw [heq] at h
        exact h
      · rename_i npa st1 heq
        have h := kalloc_ptable st PAGESIZE
        rw [heq] at h
        exact h
  · split
    · rfl
    · split
      · rename_i st1 heq
        have h := kalloc_ptable st PAGESIZE
        rw [heq] at h
        exact h
      · rename_i npa st1 heq
        have h := kalloc_ptable st PAGESIZE
        rw [heq] at h
        exact h

theorem tryMapL2_ptable (st : KState) (pt : PageTable) (va pa perm : Nat) :
    (tryMapL2 st pt va pa perm).2.2.ptable = st.ptable := by
  unfold tryMapL2
  split
  · exact tryMapL1_ptable st pt va pa perm
  · split
    · rename_i st1 heq
      have h := kalloc_ptable st PAGESIZE
      rw [heq] at h
      exact h
    · rename_i npa st1 heq
      have h := kalloc_ptable st PAGESIZE
      rw [heq] at h
      rw [tryMapL1_ptable]
      exact h

theorem try_map_ptable (st : KState) (pt : PageTable) (va pa perm : Nat) :
    (try_map st pt va pa perm).2.2.ptable = st.ptable := by
  unfold try_map
  split
  · exact tryMapL2_ptable st pt va pa perm
  · split
    · rename_i st1 heq
      have h := kalloc_ptable st PAGESIZE
      rw [heq] at h
      exact h
    · rename_i npa st1 heq
      have h := kalloc_ptable st PAGESIZE
      rw [heq] at h
      rw [tryMapL2_ptable]
      exact h

theorem forkUserLoop_ptable (ptP : PageTable) :
    ∀ (l : List Nat) (st : KState) (pt : PageTable),
      (forkUserLoop ptP l st pt).2.2.ptable = st.ptable := by
  intro l
  induction l with
  | nil => intro st pt; rfl
  | cons vpn rest ih =>
      intro st pt
      rw [forkUserLoop]
      split
      · exact ih st pt
      · split
        · rcases hk : kalloc st PAGESIZE with ⟨_ | npa, st1⟩
          all_goals
            have h := kalloc_ptable st PAGESIZE
            rw [hk] at h
            simp only [hk]
          · exact h
          · rcases hm : try_map (st1.copyPage (npa / PAGESIZE) (ptP.paAt vpn / PAGESIZE))
                pt (vpn * PAGESIZE) npa (ptP.permAt vpn) with ⟨r, pt3, st3⟩
            have h2 := try_map_ptable (st1.copyPage (npa / PAGESIZE)
              (ptP.paAt vpn / PAGESIZE)) pt (vpn * PAGESIZE) npa (ptP.permAt vpn)
            rw [hm] at h2
            by_cases hr : r ≠ 0
            · simp only [if_pos hr]
              rw [h2]; exact h
            · simp only [if_neg hr]
              rw [ih, h2]; exact h
        · rcases hm : try_map st pt (vpn * PAGESIZE) (ptP.paAt vpn) (ptP.permAt vpn)
            with ⟨r, pt1, st1⟩
          have h := try_map_ptable st pt (vpn * PAGESIZE) (ptP.paAt vpn)
            (ptP.permAt vpn)
          rw [hm] at h
          simp only [hm]
          by_cases hr : r ≠ 0
          · simp only [if_pos hr]; exact h
          · simp only [if_neg hr]
            rw [ih]
            exact h

theorem forkKernelLoop_ptable :
    ∀ (l : List Nat) (st : KState) (pt : PageTable),
      (forkKernelLoop l st pt).2.2.ptable = st.ptable := by
  intro l
  induction l with
  | nil => intro st pt; rfl
  | cons vpn rest ih =>
      intro st pt
      rw [forkKernelLoop]
      split
      · exact ih st pt
      · rcases hm : try_map st pt (vpn * PAGESIZE) (vpn * PAGESIZE)
            (if vpn * PAGESIZE ≠ CONSOLE_ADDR then clearU (kernelPerm (vpn * PAGESIZE))
             else kernelPerm (vpn * PAGESIZE)) with ⟨r, pt1, st1⟩
        have h := try_map_ptable st pt (vpn * PAGESIZE) (vpn * PAGESIZE)
          (if vpn * PAGESIZE ≠ CONSOLE_ADDR then clearU (kernelPerm (vpn * PAGESIZE))
           else kernelPerm (vpn * PAGESIZE))
        rw [hm] at h
        simp only [hm]
        by_cases hr : r ≠ 0
        · simp only [if_pos hr]; exact h
        · simp only [if_neg hr]
          rw [ih]
          exact h

theorem freeUserLoop_ptable :
    ∀ (l : List Nat) (st : KState) (pt : PageTable),
      (freeUserLoop l st pt).2.ptable = st.ptable := by
  intro l
  induction l with
  | nil => intro st pt; rfl
  | cons vpn rest ih =>
      intro st pt
      rw [freeUserLoop]
      split
      · rw [ih, kfree_ptable]
      · exact ih st pt

theorem freePtPages_ptable (st : KState) (pt : PageTable) :
    (freePtPages st pt).ptable = st.ptable := by
  unfold freePtPages
  generalize pt.ptPages = l
  induction l generalizing st with
  | nil => rfl
  | cons pn rest ih => rw [List.foldl_cons, ih, kfree_ptable]

theorem kalloc_pagetable_ptable (st : KState) :
    (kalloc_pagetable st).2.ptable = st.ptable := by
  unfold kalloc_pagetable
  rcases hk : kalloc st PAGESIZE with ⟨_ | pa, st1⟩
  all_goals
    have h := kalloc_ptable st PAGESIZE
    rw [hk] at h
    simp only [hk]
    exact h

theorem kalloc_pagetable_currentPid (st : KState) :
    (kalloc_pagetable st).2.currentPid = st.currentPid := by
  unfold kalloc_pagetable
  rcases hk : kalloc st PAGESIZE with ⟨_ | pa, st1⟩
  all_goals
    have h := kalloc_currentPid st PAGESIZE
    rw [hk] at h
    simp only [hk]
    exact h

/-- `free_pagetable_and_pages` touches no process-table slot other than `i`. -/
theorem free_pagetable_and_pages_ptable_ne (st : KState) (i j : Nat)
    (h : j ≠ i) : (free_pagetable_and_pages st i).ptable j = st.ptable j := by
  unfold free_pagetable_and_pages
  split
  · rfl
  · rename_i pt hpt
    rcases hu : freeUserLoop userVpns st pt with ⟨pt1, st1⟩
    have h1 := freeUserLoop_ptable userVpns st pt
    rw [hu] at h1
    dsimp only at h1
    simp only [hu, KState.setProc, if_neg h, kfree_ptable, freePtPages_ptable, h1]

/-- After `free_pagetable_and_pages` the slot `i` is FREE with no page table
(provided it owned one, so that the teardown actually ran). -/
theorem free_pagetable_and_pages_at (st : KState) (i : Nat) (pt : PageTable)
    (hpt : (st.ptable i).pagetable = some pt) :
    ((free_pagetable_and_pages st i).ptable i).state = PState.free
    ∧ ((free_pagetable_and_pages st i).ptable i).pagetable = none := by
  unfold free_pagetable_and_pages
  rw [hpt]
  rcases hu : freeUserLoop userVpns st pt with ⟨pt1, st1⟩
  simp [KState.setProc]

/-- `sys_exit` touches no process-table slot other than the current one. -/
theorem sys_exit_ptable_ne (st : KState) (j : Nat) (h : j ≠ st.currentPid) :
    (sys_exit st).ptable j = st.ptable j := by
  unfold sys_exit
  split
  · rfl
  · rename_i pt hpt
    rcases hu : freeUserLoop userVpns st pt with ⟨pt1, st1⟩
    have h1 := freeUserLoop_ptable userVpns st pt
    rw [hu] at h1
    dsimp only at h1
    simp only [hu, KState.setProc, if_neg h, kfree_ptable, freePtPages_ptable, h1]

/-- After `sys_exit` the current slot is never RUNNABLE (it is FREE when the
teardown ran, and it only fails to run from the unreachable no-page-table
branch, which leaves the state unchanged). -/
theorem sys_exit_at (st : KState) (pt : PageTable)
    (hpt : (st.ptable st.currentPid).pagetable = some pt) :
    ((sys_exit st).ptable st.currentPid).state = PState.free
    ∧ ((sys_exit st).ptable st.currentPid).pagetable = none := by
  unfold sys_exit
  rw [hpt]
  rcases hu : freeUserLoop userVpns st pt with ⟨pt1, st1⟩
  simp [KState.setProc]

theorem pageAllocInstall_state (st : KState) (pt : PageTable)
    (i addr kpage : Nat) (j : Nat) :
    ((pageAllocInstall st pt i addr kpage).2.ptable j).state
      = (st.ptable j).state := by
  unfold pageAllocInstall
  rcases hm : try_map st pt addr kpage (PTE_P + PTE_W + PTE_U) with ⟨r, pt4, st4⟩
  have h := try_map_ptable st pt addr kpage (PTE_P + PTE_W + PTE_U)
  rw [hm] at h
  dsimp only at h
  by_cases hr : r ≠ 0
  · simp only [if_pos hr, KState.setProc, kfree_ptable, h]
    by_cases hj : j = i <;> simp [hj]
  · simp only [if_neg hr, KState.setProc, h]
    by_cases hj : j = i <;> simp [hj]

/-- `syscall_page_alloc` never changes any process's state field. -/
theorem syscall_page_alloc_state (st : KState) (addr : Nat) (j : Nat) :
    ((syscall_page_alloc st addr).2.ptable j).state = (st.ptable j).state := by
  unfold syscall_page_alloc
  split
  · rfl
  · split
    · rfl
    · rename_i pt hpt
      rcases hk : kalloc st PAGESIZE with ⟨_ | kpage, st1⟩
      · have h := kalloc_ptable st PAGESIZE
        rw [hk] at h
        dsimp only at h
        simp only [hk, h]
      · have h := kalloc_ptable st PAGESIZE
        rw [hk] at h
        dsimp only at h
        simp only [hk]
        split
        · rw [pageAllocInstall_state]
          simp only [kfree_ptable, KState.memsetPage, h]
        · rw [pageAllocInstall_state]
          simp only [KState.memsetPage, h]

/-- The slot `forkFindFree` picks is a FREE slot (when it picks one). -/
theorem forkFindFree_free (st : KState) (h : forkFindFree st ≠ 0) :
    (st.ptable (forkFindFree st)).state = PState.free := by
  unfold forkFindFree at *
  rcases hf : (List.range' 1 (MAXNPROC - 1)).find?
      (fun i => (st.ptable i).state == PState.free) with _ | i
  · rw [hf] at h; exact absurd rfl h
  · simpa using List.find?_some hf

theorem forkFindFree_lt (st : KState) (h : forkFindFree st ≠ 0) :
    forkFindFree st < MAXNPROC ∧ 1 ≤ forkFindFree st := by
  unfold forkFindFree at *
  rcases hf : (List.range' 1 (MAXNPROC - 1)).find?
      (fun i => (st.ptable i).state == PState.free) with _ | i
  · rw [hf] at h; exact absurd rfl h
  · have := List.mem_range'_1.mp (List.mem_of_find?_eq_some hf)
    refine (show i < MAXNPROC ∧ 1 ≤ i from ?_)
    omega

/-- `syscall_fork` touches no process-table slot other than the one it picks. -/
theorem syscall_fork_ptable_ne (st : KState) (j : Nat)
    (hne : j ≠ forkFindFree st) :
    (syscall_fork st).2.ptable j = st.ptable j := by
  unfold syscall_fork
  split
  · rfl
  · split
    · rfl
    · rename_i hfp ptP hpt
      rcases hkp : kalloc_pagetable
          (st.setProc (forkFindFree st)
            { st.ptable (forkFindFree st) with regs := initRegs }) with ⟨o, st1⟩
      have h1 := kalloc_pagetable_ptable
          (st.setProc (forkFindFree st)
            { st.ptable (forkFindFree st) with regs := initRegs })
      rw [hkp] at h1
      have h1j : st1.ptable j = st.ptable j := by
        rw [h1]; simp [KState.setProc, if_neg hne]
      cases o with
      | none => simp only [hkp, KState.setProc, if_neg hne, h1j]
      | some ptC =>
          simp only [hkp]
          rcases hkl : forkKernelLoop kernelVpns st1 ptC with ⟨ok, ptC1, st2⟩
          have h2 := forkKernelLoop_ptable kernelVpns st1 ptC
          rw [hkl] at h2
          dsimp only at h2
          cases ok with
          | false =>
              simp only
              rw [free_pagetable_and_pages_ptable_ne _ _ _ hne]
              simp only [KState.setProc, if_neg hne, h2, h1j]
          | true =>
              simp only
              rcases hul : forkUserLoop ptP userVpns st2 ptC1 with ⟨ok2, ptC2, st3⟩
              have h3 := forkUserLoop_ptable ptP userVpns st2 ptC1
              rw [hul] at h3
              dsimp only at h3
              cases ok2 with
              | false =>
                  simp only
                  rw [free_pagetable_and_pages_ptable_ne _ _ _ hne]
                  simp only [KState.setProc, if_neg hne, h3, h2, h1j]
              | true =>
                  simp only [KState.setProc, if_neg hne, h3, h2, h1j]

/-! ## Fault handling: claim C8 -/

/-- The exception dispatcher never un-faults a descriptor. -/
theorem exception_faulted (st : KState) (intno ec i : Nat)
    (hf : (st.ptable i).state = PState.faulted) :
    ((exception st intno ec).2.ptable i).state = PState.faulted := by
  unfold exception
  split
  · exact hf
  · split
    · split
      · exact hf
      · by_cases hi : i = st.currentPid
        · simp [KState.setProc, hi]
        · simp [KState.setProc, if_neg hi, hf]
    · exact hf

/-- **C8**: a page fault with the user bit set marks the current process
FAULTED and hands control to the scheduler, while one without the user bit
halts the kernel; a FAULTED descriptor is never made RUNNABLE again by any
kernel operation (page-alloc and fork leave it FAULTED — fork reuses only
FREE slots —, exit can only free it, fault handling leaves it FAULTED, and
the scheduler never resumes it), and whenever some RUNNABLE slot exists the
scheduler still resumes a RUNNABLE process. -/
theorem C8_user_fault_terminal (st : KState) (errcode : Nat) (i : Nat) :
    (errcode &&& PTE_U ≠ 0 →
      (exception st INT_PF errcode).1 = Action.sched
      ∧ ((exception st INT_PF errcode).2.ptable st.currentPid).state
          = PState.faulted)
    ∧ (errcode &&& PTE_U = 0 → exception st INT_PF errcode = (Action.halt, st))
    ∧ ((st.ptable i).state = PState.faulted →
        (∀ addr, ((syscall_page_alloc st addr).2.ptable i).state
            = PState.faulted)
        ∧ ((syscall_fork st).2.ptable i).state = PState.faulted
        ∧ ((sys_exit st).ptable i).state ≠ PState.runnable
        ∧ (∀ intno ec, ((exception st intno ec).2.ptable i).state
            = PState.faulted)
        ∧ (∀ p, schedule st = some p → p ≠ i))
    ∧ (∀ q, q < MAXNPROC → (st.ptable q).state = PState.runnable →
        ∃ r, schedule st = some r ∧ (st.ptable r).state = PState.runnable) := by
  refine ⟨?_, ?_, ?_, ?_⟩
  · intro h
    unfold exception
    rw [if_neg (by norm_num [INT_PF, INT_TIMER]), if_pos rfl, if_neg h]
    exact ⟨rfl, by simp [KState.setProc]⟩
  · intro h
    unfold exception
    rw [if_neg (by norm_num [INT_PF, INT_TIMER]), if_pos rfl, if_pos h]
  · intro hf
    refine ⟨?_, ?_, ?_, ?_, ?_⟩
    · intro addr
      rw [syscall_page_alloc_state]
      exact hf
    · by_cases hz : forkFindFree st = 0
      · unfold syscall_fork
        rw [if_pos hz]
        exact hf
      · have hne : i ≠ forkFindFree st := by
          intro he
          have hfree := forkFindFree_free st hz
          rw [← he, hf] at hfree
          cases hfree
        rw [syscall_fork_ptable_ne st i hne]
        exact hf
    · by_cases hi : i = st.currentPid
      · rw [hi] at hf ⊢
        cases hpt : (st.ptable st.currentPid).pagetable with
        | none =>
            unfold sys_exit
            rw [hpt, hf]
            intro hcon; cases hcon
        | some pt =>
            rw [(sys_exit_at st pt hpt).1]
            intro hcon; cases hcon
      · rw [sys_exit_ptable_ne st i hi, hf]
        intro hcon; cases hcon
    · intro intno ec
      exact exception_faulted st intno ec i hf
    · intro p hp hpi
      obtain ⟨j, hj, hpe, hrun, _⟩ :=
        findRunnable_first st MAXNPROC st.currentPid p hp
      rw [hpi, hf] at hrun
      cases hrun
  · intro q hqM hqrun
    have hcm : (st.currentPid + 1) % MAXNPROC < MAXNPROC :=
      Nat.mod_lt _ MAXNPROC_pos
    obtain ⟨j, hjM, hpj⟩ : ∃ j, j < MAXNPROC
        ∧ q = (st.currentPid + 1 + j) % MAXNPROC := by
      refine ⟨(q + MAXNPROC - (st.currentPid + 1) % MAXNPROC) % MAXNPROC,
        Nat.mod_lt _ MAXNPROC_pos, ?_⟩
      have hc2 : (st.currentPid + 1) % MAXNPROC < MAXNPROC :=
        Nat.mod_lt _ MAXNPROC_pos
      rw [← Nat.mod_add_mod, Nat.add_mod_mod,
          show (st.currentPid + 1) % MAXNPROC
              + (q + MAXNPROC - (st.currentPid + 1) % MAXNPROC)
              = q + MAXNPROC by omega,
          Nat.add_mod_right, Nat.mod_eq_of_lt hqM]
    obtain ⟨r, hr⟩ := findRunnable_isSome st MAXNPROC st.currentPid j q hjM
      hpj hqrun
    obtain ⟨_, _, _, hrrun, _⟩ := findRunnable_first st MAXNPROC st.currentPid r hr
    exact ⟨r, hr, hrrun⟩

/-- Witness for C8 at `stF` (current = 1 runnable, slot 2 FAULTED): a
user-bit page fault schedules and faults the current process; fork leaves
slot 2 FAULTED; the scheduler still finds a runnable process. -/
theorem C8_user_fault_terminal_witness :
    ((exception stF INT_PF 4).1 = Action.sched
      ∧ ((exception stF INT_PF 4).2.ptable stF.currentPid).state
          = PState.faulted)
    ∧ ((syscall_fork stF).2.ptable 2).state = PState.faulted
    ∧ (∃ r, schedule stF = some r ∧ (stF.ptable r).state = PState.runnable) :=
  ⟨(C8_user_fault_terminal stF 4 2).1 (by decide),
   ((C8_user_fault_terminal stF 4 2).2.2.1 (by decide)).2.1,
   (C8_user_fault_terminal stF 4 2).2.2.2 1 (by decide) (by decide)⟩

/-! ## The descriptor/address-space invariant: claim C9 -/

theorem setupSegLoop_ptable (seg : Segment) :
    ∀ (l : List Nat) (st : KState) (pt : PageTable) (pt' : PageTable)
      (st' : KState), setupSegLoop seg l st pt = some (pt', st') →
      st'.ptable = st.ptable := by
  intro l
  induction l with
  | nil =>
      intro st pt pt' st' h
      rw [setupSegLoop] at h
      injection h with h
      injection h with h1 h2
      rw [← h2]
  | cons va rest ih =>
      intro st pt pt' st' h
      rw [setupSegLoop] at h
      split at h
      · cases h
      · rename_i kpage st1 hk
        have hkp := kalloc_ptable st PAGESIZE
        rw [hk] at hkp
        dsimp only at hkp
        rcases hm : try_map (st1.memsetPage (kpage / PAGESIZE) 0) pt va kpage
            (PTE_P + PTE_U + (if seg.writable then PTE_W else 0))
          with ⟨r, pt3, st3⟩
        rw [hm] at h
        have hmp := try_map_ptable (st1.memsetPage (kpage / PAGESIZE) 0) pt va
          kpage (PTE_P + PTE_U + (if seg.writable then PTE_W else 0))
        rw [hm] at hmp
        dsimp only at hmp
        dsimp only at h
        by_cases hr : r ≠ 0
        · rw [if_pos hr] at h; cases h
        · rw [if_neg hr] at h
          rw [ih _ _ _ _ h]
          simp only [loadSegPage]
          rw [hmp]
          exact hkp

theorem setupSegsLoop_ptable :
    ∀ (segs : List Segment) (st : KState) (pt : PageTable) (pt' : PageTable)
      (st' : KState), setupSegsLoop segs st pt = some (pt', st') →
      st'.ptable = st.ptable := by
  intro segs
  induction segs with
  | nil =>
      intro st pt pt' st' h
      rw [setupSegsLoop] at h
      injection h with h
      injection h with h1 h2
      rw [← h2]
  | cons seg rest ih =>
      intro st pt pt' st' h
      rw [setupSegsLoop] at h
      split at h
      · cases h
      · rename_i pt1 st1 hs
        rw [ih _ _ _ _ h, setupSegLoop_ptable seg _ _ _ _ _ hs]

/-- What `process_setup` does to the process table when it succeeds: the slot
becomes RUNNABLE owning a fresh page table, every other slot is untouched. -/
theorem process_setup_some (st : KState) (pid : Nat) (pgm : Program)
    (st' : KState) (h : process_setup st pid pgm = some st') :
    (st'.ptable pid).state = PState.runnable
    ∧ (∃ pt, (st'.ptable pid).pagetable = some pt)
    ∧ ∀ j, j ≠ pid → st'.ptable j = st.ptable j := by
  unfold process_setup at h
  split at h
  · cases h
  · rename_i pt st1 hkp
    have h1 := kalloc_pagetable_ptable
      (st.setProc pid { st.ptable pid with regs := initRegs })
    rw [hkp] at h1
    dsimp only at h1
    split at h
    · cases h
    · rename_i pt2 st2 hkl
      have h2 := forkKernelLoop_ptable kernelVpns
        (st1.setProc pid { st1.ptable pid with pagetable := some pt }) pt
      rw [hkl] at h2
      dsimp only at h2
      split at h
      · cases h
      · rename_i pt3 st3 hsl
        have h3 := setupSegsLoop_ptable pgm.segs st2 pt2 pt3 st3 hsl
        split at h
        · cases h
        · rename_i kpage st4 hk4
          have h4 := kalloc_ptable st3 PAGESIZE
          rw [hk4] at h4
          dsimp only at h4
          rcases hm : try_map (st4.memsetPage (kpage / PAGESIZE) 0) pt3
              (MEMSIZE_VIRTUAL - PAGESIZE) kpage (PTE_P + PTE_W + PTE_U)
            with ⟨r, pt6, st6⟩
          rw [hm] at h
          have h6 := try_map_ptable (st4.memsetPage (kpage / PAGESIZE) 0) pt3
            (MEMSIZE_VIRTUAL - PAGESIZE) kpage (PTE_P + PTE_W + PTE_U)
          rw [hm] at h6
          dsimp only at h6
          dsimp only at h
          by_cases hr : r ≠ 0
          · rw [if_pos hr] at h; cases h
          · rw [if_neg hr] at h
            injection h with h
            rw [← h]
            refine ⟨by simp [KState.setProc], ⟨pt6, by simp [KState.setProc]⟩, ?_⟩
            intro j hj
            simp only [KState.setProc, if_neg hj]
            rw [h6]
            simp only [KState.memsetPage]
            rw [h4, h3, h2]
            simp only [KState.setProc, if_neg hj]
            rw [h1]
            simp only [KState.setProc, if_neg hj]

/-- What `syscall_fork` can do to the slot it picked: leave the state alone
(unreachable null-parent-table branch), leave it FREE with no page table
(failed fork, fully torn down), or make it RUNNABLE with a page table. -/
theorem syscall_fork_at (st : KState) (hz : forkFindFree st ≠ 0) :
    (syscall_fork st).2 = st
    ∨ (((syscall_fork st).2.ptable (forkFindFree st)).state = PState.free
        ∧ ((syscall_fork st).2.ptable (forkFindFree st)).pagetable = none)
    ∨ (((syscall_fork st).2.ptable (forkFindFree st)).state = PState.runnable
        ∧ ∃ pt, ((syscall_fork st).2.ptable (forkFindFree st)).pagetable
            = some pt) := by
  unfold syscall_fork
  rw [if_neg hz]
  split
  · exact Or.inl rfl
  · rename_i ptP hpt
    rcases hkp : kalloc_pagetable
        (st.setProc (forkFindFree st)
          { st.ptable (forkFindFree st) with regs := initRegs }) with ⟨o, st1⟩
    have h1 := kalloc_pagetable_ptable
        (st.setProc (forkFindFree st)
          { st.ptable (forkFindFree st) with regs := initRegs })
    rw [hkp] at h1
    dsimp only at h1
    cases o with
    | none =>
        simp only [hkp]
        refine Or.inr (Or.inl ⟨?_, ?_⟩)
        · simp only [KState.setProc, if_pos rfl]
          rw [h1]
          simp only [KState.setProc, if_pos rfl]
          exact forkFindFree_free st hz
        · simp [KState.setProc]
    | some ptC =>
        simp only [hkp]
        rcases hkl : forkKernelLoop kernelVpns st1 ptC with ⟨ok, ptC1, st2⟩
        cases ok with
        | false =>
            simp only [hkl]
            refine Or.inr (Or.inl ?_)
            exact free_pagetable_and_pages_at _ (forkFindFree st) ptC1
              (by simp [KState.setProc])
        | true =>
            simp only [hkl]
            rcases hul : forkUserLoop ptP userVpns st2 ptC1 with ⟨ok2, ptC2, st3⟩
            cases ok2 with
            | false =>
                simp only [hul]
                refine Or.inr (Or.inl ?_)
                exact free_pagetable_and_pages_at _ (forkFindFree st) ptC2
                  (by simp [KState.setProc])
            | true =>
                simp only [hul]
                refine Or.inr (Or.inr ⟨?_, ptC2, ?_⟩)
                · simp [KState.setProc]
                · simp [KState.setProc]

/-- `pageAllocInstall` can only turn slot `i`'s page table into `some`; every
other slot keeps its `Proc` record. -/
theorem pageAllocInstall_pagetable (st : KState) (pt : PageTable)
    (i addr kpage : Nat) (j : Nat) :
    (j ≠ i → (pageAllocInstall st pt i addr kpage).2.ptable j = st.ptable j)
    ∧ (∃ pt', ((pageAllocInstall st pt i addr kpage).2.ptable i).pagetable
        = some pt') := by
  unfold pageAllocInstall
  rcases hm : try_map st pt addr kpage (PTE_P + PTE_W + PTE_U) with ⟨r, pt4, st4⟩
  have h := try_map_ptable st pt addr kpage (PTE_P + PTE_W + PTE_U)
  rw [hm] at h
  dsimp only at h
  by_cases hr : r ≠ 0
  · simp only [if_pos hr, KState.setProc, kfree_ptable, h]
    constructor
    · intro hj; simp [if_neg hj]
    · exact ⟨pt4, by simp⟩
  · simp only [if_neg hr, KState.setProc, h]
    constructor
    · intro hj; simp [if_neg hj]
    · exact ⟨pt4, by simp⟩

/-- `syscall_page_alloc` keeps every other slot's record, and can only turn
the current slot's page table from `some` into `some`. -/
theorem syscall_page_alloc_pagetable (st : KState) (addr : Nat) (j : Nat) :
    ((syscall_page_alloc st addr).2.ptable j).pagetable.isSome
      = ((st.ptable j).pagetable).isSome := by
  unfold syscall_page_alloc
  split
  · rfl
  · split
    · rfl
    · rename_i pt hpt
      rcases hk : kalloc st PAGESIZE with ⟨_ | kpage, st1⟩
      · have h := kalloc_ptable st PAGESIZE
        rw [hk] at h
        dsimp only at h
        simp only [hk, h]
      · have h := kalloc_ptable st PAGESIZE
        rw [hk] at h
        dsimp only at h
        simp only [hk]
        by_cases hj : j = st.currentPid
        · rw [hj]
          split
          all_goals
            obtain ⟨pt', hpt'⟩ :=
              (pageAllocInstall_pagetable _ _ st.currentPid addr kpage
                st.currentPid).2
            rw [hpt', hpt]
            rfl
        · split
          all_goals
            rw [(pageAllocInstall_pagetable _ _ st.currentPid addr kpage j).1 hj]
            simp [kfree_ptable, KState.memsetPage, h]

theorem isNone_iff_of_isSome_eq {a b : Option PageTable}
    (h : a.isSome = b.isSome) : a.isNone = true ↔ b.isNone = true := by
  cases a <;> cases b <;> simp_all

/-- **C9**: the descriptor invariant — FREE ⇔ null address space, hence
RUNNABLE/FAULTED ⇒ non-null — is preserved by `syscall_page_alloc`,
`syscall_fork` (all paths), `sys_exit`, the exception handler (fault
handling; the current process is not FREE while it executes), and every
successful `process_setup`. -/
theorem C9_invariant_preserved (st : KState) (hInv : Inv st)
    (hcur : st.currentPid < MAXNPROC) :
    (∀ addr, Inv (syscall_page_alloc st addr).2)
    ∧ Inv (syscall_fork st).2
    ∧ Inv (sys_exit st)
    ∧ ((st.ptable st.currentPid).state ≠ PState.free →
        ∀ intno ec, Inv (exception st intno ec).2)
    ∧ (∀ pid pgm st', process_setup st pid pgm = some st' → Inv st') := by
  refine ⟨?_, ?_, ?_, ?_, ?_⟩
  · intro addr i hi
    rw [syscall_page_alloc_state]
    exact (hInv i hi).trans
      (isNone_iff_of_isSome_eq (syscall_page_alloc_pagetable st addr i)).symm
  · by_cases hz : forkFindFree st = 0
    · have heq : (syscall_fork st).2 = st := by
        unfold syscall_fork; rw [if_pos hz]
      rw [heq]; exact hInv
    · intro i hi
      by_cases hij : i = forkFindFree st
      · rcases syscall_fork_at st hz with heq | ⟨hs, hp⟩ | ⟨hs, pt, hp⟩
        · rw [heq]; exact hInv i hi
        · rw [hij, hs, hp]; simp
        · rw [hij, hs, hp]; simp
      · rw [syscall_fork_ptable_ne st i hij]
        exact hInv i hi
  · cases hpt : (st.ptable st.currentPid).pagetable with
    | none =>
        have heq : sys_exit st = st := by unfold sys_exit; rw [hpt]
        rw [heq]; exact hInv
    | some pt =>
        intro i hi
        by_cases hic : i = st.currentPid
        · rw [hic, (sys_exit_at st pt hpt).1, (sys_exit_at st pt hpt).2]
          simp
        · rw [sys_exit_ptable_ne st i hic]
          exact hInv i hi
  · intro hst intno ec i hi
    unfold exception
    split
    · exact hInv i hi
    · split
      · split
        · exact hInv i hi
        · by_cases hic : i = st.currentPid
          · simp only [hic, KState.setProc, if_pos rfl]
            have hns := (hInv st.currentPid hcur)
            constructor
            · intro hcon; cases hcon
            · intro hn
              exact absurd ((hInv st.currentPid hcur).mpr hn) hst
          · simp only [KState.setProc, if_neg hic]
            exact hInv i hi
      · exact hInv i hi
  · intro pid pgm st' hsu i hi
    obtain ⟨hrun, ⟨pt, hpt⟩, hothers⟩ := process_setup_some st pid pgm st' hsu
    by_cases hip : i = pid
    · rw [hip, hrun, hpt]
      simp
    · rw [hothers i hip]
      exact hInv i hi

/-- Witness for C9 at `stW` (which satisfies the invariant): the invariant
still holds after a page allocation, a fork, an exit, and a user page
fault. -/
theorem C9_invariant_preserved_witness :
    Inv (syscall_page_alloc stW 0x100000).2
    ∧ Inv (syscall_fork stW).2
    ∧ Inv (sys_exit stW)
    ∧ Inv (exception stW INT_PF 4).2 :=
  ⟨(C9_invariant_preserved stW (by decide) (by decide)).1 0x100000,
   (C9_invariant_preserved stW (by decide) (by decide)).2.1,
   (C9_invariant_preserved stW (by decide) (by decide)).2.2.1,
   (C9_invariant_preserved stW (by decide) (by decide)).2.2.2.1
     (by decide) INT_PF 4⟩

/-! ## `syscall_page_alloc`: claim C3 -/

/-- On a structurally complete table `try_map` just installs the leaf entry:
no allocation happens and it cannot fail. -/
theorem try_map_full (st : KState) (pt : PageTable) (va pa perm : Nat)
    (hfull : pt.full = true) :
    try_map st pt va pa perm = (0, pt.setEntry (va / PAGESIZE) pa perm, st) := by
  simp only [PageTable.full, Bool.and_eq_true, Option.isSome_iff_exists] at hfull
  obtain ⟨⟨⟨⟨x3, h3⟩, x2, h2⟩, xa, ha⟩, xb, hb⟩ := hfull
  unfold try_map tryMapL2 tryMapL1 tryMapLeaf
  rw [h3, h2, ha, hb]
  by_cases hr : regionOf va = 0
  · rw [if_pos hr]
  · rw [if_neg hr]

/-- `setEntry` does not disturb the intermediate structure. -/
theorem setEntry_full (pt : PageTable) (vpn pa perm : Nat)
    (h : pt.full = true) : (pt.setEntry vpn pa perm).full = true := h

theorem kalloc_none_state (st : KState) (sz : Nat) (h : sz ≤ PAGESIZE)
    (hn : (kalloc st sz).1 = none) : kalloc st sz = (none, st) := by
  rw [kalloc_of_le st sz h] at hn ⊢
  cases hs : kallocSearch st.physpages with
  | none => rfl
  | some pn => rw [hs] at hn; cases hn

theorem kalloc_some_state (st : KState) (sz : Nat) (h : sz ≤ PAGESIZE)
    (kpage : Nat) (hs : (kalloc st sz).1 = some kpage) :
    kalloc st sz =
      (some kpage,
       ((st.setRef (kpage / PAGESIZE) (st.physpages (kpage / PAGESIZE) + 1)
          ).memsetPage (kpage / PAGESIZE) 0xCC)) := by
  rw [kalloc_of_le st sz h] at hs ⊢
  cases hq : kallocSearch st.physpages with
  | none => rw [hq] at hs; cases hs
  | some pn =>
      rw [hq] at hs
      simp only [Option.some.injEq] at hs
      have hdiv : kpage / PAGESIZE = pn := by
        rw [← hs, Nat.mul_div_cancel pn (by norm_num [PAGESIZE])]
      rw [hdiv]
      dsimp only
      rw [hs]

theorem kalloc_some_facts (st : KState) (sz kpage : Nat) (h : sz ≤ PAGESIZE)
    (hs : (kalloc st sz).1 = some kpage) :
    allocatable_physical_address kpage = true
    ∧ st.physpages (kpage / PAGESIZE) = 0
    ∧ kpage % PAGESIZE = 0 := by
  rw [kalloc_of_le st sz h] at hs
  cases hq : kallocSearch st.physpages with
  | none => rw [hq] at hs; cases hs
  | some pn =>
      rw [hq] at hs
      simp only [Option.some.injEq] at hs
      obtain ⟨ha, h0⟩ := kallocSearch_some st.physpages pn hq
      subst hs
      rw [Nat.mul_div_cancel pn (by norm_num [PAGESIZE])]
      exact ⟨ha, h0, Nat.mul_mod_left pn PAGESIZE⟩

/-- **C3**: `syscall_page_alloc(addr)` returns −1 leaving the whole kernel
state untouched when `addr` is below the user region, at or above the
virtual-memory limit, or unaligned, and likewise when no physical page can be
allocated; otherwise it returns 0 after mapping one freshly allocated
(previously free) physical page at `addr` with present/writable/user
permissions, zeroing it, freeing the user page previously mapped at `addr`
if there was one (its reference count drops by one), and touching no other
mapping and no other reference count.  (`pt.full`: the current table has its
intermediate structure, as every table built by setup/fork does, so
installing the mapping cannot fail; mapped pages have positive counts.) -/
theorem C3_page_alloc_spec (st : KState) (addr : Nat) (pt : PageTable)
    (hpt : (st.ptable st.currentPid).pagetable = some pt)
    (hfull : pt.full = true)
    (hpos : pt.presentAt (addr / PAGESIZE) = true →
      0 < st.physpages (pt.paAt (addr / PAGESIZE) / PAGESIZE))
    (halign : pt.presentAt (addr / PAGESIZE) = true →
      pt.paAt (addr / PAGESIZE) ≠ 0
      ∧ pt.paAt (addr / PAGESIZE) < MEMSIZE_PHYSICAL
      ∧ pt.paAt (addr / PAGESIZE) % PAGESIZE = 0) :
    ((addr < PROC_START_ADDR ∨ MEMSIZE_VIRTUAL ≤ addr ∨ addr % PAGESIZE ≠ 0) →
      syscall_page_alloc st addr = (-1, st))
    ∧ (¬(addr < PROC_START_ADDR ∨ MEMSIZE_VIRTUAL ≤ addr
          ∨ addr % PAGESIZE ≠ 0) →
        ((kalloc st PAGESIZE).1 = none →
          syscall_page_alloc st addr = (-1, st))
        ∧ (∀ kpage, (kalloc st PAGESIZE).1 = some kpage →
            (syscall_page_alloc st addr).1 = 0
            ∧ (∃ pt',
                ((syscall_page_alloc st addr).2.ptable st.currentPid).pagetable
                  = some pt'
                ∧ pt'.entries (addr / PAGESIZE)
                    = some (kpage, PTE_P + PTE_W + PTE_U)
                ∧ ∀ v, v ≠ addr / PAGESIZE → pt'.entries v = pt.entries v)
            ∧ st.physpages (kpage / PAGESIZE) = 0
            ∧ (syscall_page_alloc st addr).2.physpages (kpage / PAGESIZE) = 1
            ∧ (∀ off,
                (syscall_page_alloc st addr).2.pagemem (kpage / PAGESIZE) off
                  = 0)
            ∧ (pt.presentAt (addr / PAGESIZE) = true →
                pt.userAt (addr / PAGESIZE) = true →
                (syscall_page_alloc st addr).2.physpages
                    (pt.paAt (addr / PAGESIZE) / PAGESIZE)
                  = st.physpages (pt.paAt (addr / PAGESIZE) / PAGESIZE) - 1)
            ∧ (∀ q, q ≠ kpage / PAGESIZE →
                q ≠ pt.paAt (addr / PAGESIZE) / PAGESIZE →
                (syscall_page_alloc st addr).2.physpages q
                  = st.physpages q))) := by
  constructor
  · intro hbad
    unfold syscall_page_alloc
    rw [if_pos hbad]
  · intro hbad
    have hcons : (addr != CONSOLE_ADDR) = true := by
      simp only [bne_iff_ne, ne_eq]
      intro he
      rw [he] at hbad
      exact hbad (Or.inl (by norm_num [CONSOLE_ADDR, PROC_START_ADDR]))
    constructor
    · intro hkn
      have hk := kalloc_none_state st PAGESIZE le_rfl hkn
      unfold syscall_page_alloc
      rw [if_neg hbad]
      simp only [hpt, hk]
    · intro kpage hks
      have hk := kalloc_some_state st PAGESIZE le_rfl kpage hks
      obtain ⟨halloc, h0, haligned⟩ :=
        kalloc_some_facts st PAGESIZE kpage le_rfl hks
      unfold syscall_page_alloc
      rw [if_neg hbad]
      simp only [hpt, hk]
      by_cases hold : (pt.presentAt (addr / PAGESIZE)
          && pt.userAt (addr / PAGESIZE)) = true
      · -- an old user mapping is freed and replaced
        simp only [Bool.and_eq_true] at hold
        obtain ⟨holdp, holdu⟩ := hold
        have holdpos := hpos holdp
        have hne_old : pt.paAt (addr / PAGESIZE) / PAGESIZE
            ≠ kpage / PAGESIZE := by
          intro he; rw [he, h0] at holdpos; omega
        obtain ⟨hoz, hom, hoa⟩ := halign holdp
        rw [if_pos (by simp [holdp, holdu, hcons])]
        unfold pageAllocInstall
        rw [try_map_full _ _ _ _ _
          (setEntry_full pt (addr / PAGESIZE) (pt.paAt (addr / PAGESIZE)) 0
            hfull)]
        dsimp only
        rw [if_neg (by norm_num)]
        refine ⟨rfl,
          ⟨(pt.setEntry (addr / PAGESIZE) (pt.paAt (addr / PAGESIZE)) 0).setEntry
              (addr / PAGESIZE) kpage (PTE_P + PTE_W + PTE_U),
           by simp [KState.setProc], ?_, ?_⟩, h0, ?_, ?_, ?_, ?_⟩
        · simp [PageTable.setEntry]
        · intro v hv
          simp [PageTable.setEntry, if_neg hv]
        · -- the fresh page's count: 0 → 1, untouched by the kfree of the
          -- old page (a different page, since the old one has positive count)
          simp only [KState.setProc]
          rw [kfree_physpages_ne _ _ _ (Ne.symm hne_old)]
          simp [KState.memsetPage, KState.setRef, h0]
        · -- the fresh page is all zero
          intro off
          simp only [KState.setProc, kfree_pagemem]
          simp [KState.memsetPage]
        · -- the old page's count drops by one
          intro _ _
          have hstep := (kfree_characterization
            (((st.setRef (kpage / PAGESIZE)
                (st.physpages (kpage / PAGESIZE) + 1)).memsetPage
                (kpage / PAGESIZE) 0xCC).memsetPage (kpage / PAGESIZE) 0)
            (pt.paAt (addr / PAGESIZE))).2.2.2.2 hoz hom hoa
            (by simp only [KState.memsetPage, KState.setRef]
                rw [if_neg hne_old]
                omega)
          simp only [KState.setProc]
          rw [hstep.1]
          simp only [KState.memsetPage, KState.setRef]
          rw [if_neg hne_old]
        · -- no other count changes
          intro q hqk hqo
          simp only [KState.setProc]
          rw [kfree_physpages_ne _ _ _ hqo]
          simp [KState.memsetPage, KState.setRef, if_neg hqk]
      · -- no old user mapping: nothing is freed
        rw [if_neg (by
          intro hc
          rw [Bool.and_eq_true, Bool.and_eq_true] at hc
          exact hold (by rw [Bool.and_eq_true]; exact hc.1))]
        unfold pageAllocInstall
        rw [try_map_full _ _ _ _ _ hfull]
        dsimp only
        rw [if_neg (by norm_num)]
        refine ⟨rfl,
          ⟨pt.setEntry (addr / PAGESIZE) kpage (PTE_P + PTE_W + PTE_U),
           by simp [KState.setProc], ?_, ?_⟩, h0, ?_, ?_, ?_, ?_⟩
        · simp [PageTable.setEntry]
        · intro v hv
          simp [PageTable.setEntry, if_neg hv]
        · simp [KState.setProc, KState.memsetPage, KState.setRef, h0]
        · intro off
          simp [KState.setProc, KState.memsetPage]
        · intro hp hu
          exact absurd (by rw [Bool.and_eq_true]; exact ⟨hp, hu⟩) hold
        · intro q hqk hqo
          simp [KState.setProc, KState.memsetPage, KState.setRef, if_neg hqk]

/-- Witness for C3 at `stW`: allocating at 0x100000 (which already holds the
read-only page 306) succeeds, the fresh page 256 ends with count 1, the old
page's count drops from 1 to 0, and an unaligned/low address fails with no
state change. -/
theorem C3_page_alloc_spec_witness :
    (syscall_page_alloc stW 0x100000).1 = 0
    ∧ (syscall_page_alloc stW 0x100000).2.physpages 256 = 1
    ∧ (syscall_page_alloc stW 0x100000).2.physpages 306
        = stW.physpages 306 - 1
    ∧ syscall_page_alloc stW 0xff000 = (-1, stW) := by
  have h := C3_page_alloc_spec stW 0x100000 ptW rfl (by decide) (by decide)
    (by decide)
  have hvalid : ¬((0x100000 : Nat) < PROC_START_ADDR
      ∨ MEMSIZE_VIRTUAL ≤ 0x100000 ∨ (0x100000 : Nat) % PAGESIZE ≠ 0) := by
    decide
  have hks : (kalloc stW PAGESIZE).1 = some (256 * PAGESIZE) := by decide
  obtain ⟨h1, _, _, hfresh, _, hofreed, _⟩ := (h.2 hvalid).2 (256 * PAGESIZE) hks
  refine ⟨h1, ?_, ?_, ?_⟩
  · rw [show (256 * PAGESIZE) / PAGESIZE = 256 by decide] at hfresh
    exact hfresh
  · have ho := hofreed (by decide) (by decide)
    rw [show ptW.paAt (0x100000 / PAGESIZE) / PAGESIZE = 306 by decide] at ho
    exact ho
  · exact (C3_page_alloc_spec stW 0xff000 ptW rfl (by decide) (by decide)
      (by decide)).1 (by decide)

/-! ## `sys_exit`: claim C4 -/

theorem setEntry_presentAt_ne (pt : PageTable) (vpn pa perm v : Nat)
    (h : v ≠ vpn) :
    (pt.setEntry vpn pa perm).presentAt v = pt.presentAt v := by
  simp [PageTable.presentAt, PageTable.setEntry, if_neg h]

theorem setEntry_userAt_ne (pt : PageTable) (vpn pa perm v : Nat)
    (h : v ≠ vpn) :
    (pt.setEntry vpn pa perm).userAt v = pt.userAt v := by
  simp [PageTable.userAt, PageTable.setEntry, if_neg h]

theorem setEntry_paAt_ne (pt : PageTable) (vpn pa perm v : Nat)
    (h : v ≠ vpn) :
    (pt.setEntry vpn pa perm).paAt v = pt.paAt v := by
  simp [PageTable.paAt, PageTable.setEntry, if_neg h]

/-- The user-page guard of the teardown loops, as one Bool. -/
def exitGuard (pt : PageTable) (v : Nat) : Bool :=
  pt.presentAt v && pt.userAt v && v * PAGESIZE != CONSOLE_ADDR

/-- A `kfree` on a valid page address decrements exactly that page. -/
theorem kfree_valid (st : KState) (pa : Nat) (hz : pa ≠ 0)
    (hm : pa < MEMSIZE_PHYSICAL) (ha : pa % PAGESIZE = 0) (q : Nat) :
    (kfree st pa).physpages q
      = if q = pa / PAGESIZE then st.physpages q - 1 else st.physpages q := by
  by_cases hq : q = pa / PAGESIZE
  · rw [if_pos hq]
    by_cases h0 : st.physpages (pa / PAGESIZE) = 0
    · rw [(kfree_characterization st pa).2.2.2.1 h0, hq, h0]
    · rw [hq]
      exact ((kfree_characterization st pa).2.2.2.2 hz hm ha h0).1
  · rw [if_neg hq]
    exact kfree_physpages_ne st pa q hq

/-- Effect of the teardown's user-page loop on the reference counts: every
page reachable through a present, user, non-console mapping of `l` loses one
reference; nothing else changes.  (`l` without duplicates; mapped pages
valid, with positive counts; the map is injective on `l`.) -/
theorem freeUserLoop_physpages :
    ∀ (l : List Nat) (st : KState) (pt : PageTable), l.Nodup →
      (∀ v ∈ l, exitGuard pt v = true →
        pt.paAt v ≠ 0 ∧ pt.paAt v < MEMSIZE_PHYSICAL
        ∧ pt.paAt v % PAGESIZE = 0
        ∧ 0 < st.physpages (pt.paAt v / PAGESIZE)) →
      (∀ v w, v ∈ l → w ∈ l → exitGuard pt v = true → exitGuard pt w = true →
        pt.paAt v / PAGESIZE = pt.paAt w / PAGESIZE → v = w) →
      ∀ q,
        (freeUserLoop l st pt).2.physpages q =
          if ∃ v, v ∈ l ∧ exitGuard pt v = true ∧ pt.paAt v / PAGESIZE = q
          then st.physpages q - 1 else st.physpages q := by
  intro l
  induction l with
  | nil =>
      intro st pt _ _ _ q
      rw [if_neg (by rintro ⟨v, hv, _⟩; cases hv)]
      rfl
  | cons vpn rest ih =>
      intro st pt hnd hval hinj q
      have hvpn_rest : vpn ∉ rest := (List.nodup_cons.mp hnd).1
      have hnd' : rest.Nodup := (List.nodup_cons.mp hnd).2
      rw [freeUserLoop]
      rw [show (pt.presentAt vpn && pt.userAt vpn
          && vpn * PAGESIZE != CONSOLE_ADDR) = exitGuard pt vpn from rfl]
      by_cases hg : exitGuard pt vpn = true
      · rw [if_pos (by exact hg)]
        obtain ⟨hz, hm, ha, hpos⟩ := hval vpn (List.mem_cons_self vpn rest) hg
        -- the modified table agrees with `pt` on `rest`
        have hsame : ∀ v ∈ rest,
            exitGuard (pt.setEntry vpn (pt.paAt vpn) 0) v = exitGuard pt v
            ∧ (pt.setEntry vpn (pt.paAt vpn) 0).paAt v = pt.paAt v := by
          intro v hv
          have hne : v ≠ vpn := fun he => hvpn_rest (he ▸ hv)
          constructor
          · unfold exitGuard
            rw [setEntry_presentAt_ne _ _ _ _ _ hne,
                setEntry_userAt_ne _ _ _ _ _ hne]
          · exact setEntry_paAt_ne _ _ _ _ _ hne
        have hkf : ∀ r, (kfree st (pt.paAt vpn)).physpages r
            = if r = pt.paAt vpn / PAGESIZE then st.physpages r - 1
              else st.physpages r := kfree_valid st (pt.paAt vpn) hz hm ha
        have hval' : ∀ v ∈ rest,
            exitGuard (pt.setEntry vpn (pt.paAt vpn) 0) v = true →
            (pt.setEntry vpn (pt.paAt vpn) 0).paAt v ≠ 0
            ∧ (pt.setEntry vpn (pt.paAt vpn) 0).paAt v < MEMSIZE_PHYSICAL
            ∧ (pt.setEntry vpn (pt.paAt vpn) 0).paAt v % PAGESIZE = 0
            ∧ 0 < (kfree st (pt.paAt vpn)).physpages
                ((pt.setEntry vpn (pt.paAt vpn) 0).paAt v / PAGESIZE) := by
          intro v hv hgv
          rw [(hsame v hv).1] at hgv
          rw [(hsame v hv).2]
          obtain ⟨z, m, a, pos⟩ := hval v (List.mem_cons_of_mem vpn hv) hgv
          refine ⟨z, m, a, ?_⟩
          rw [hkf]
          split
          · rename_i he
            exact absurd
              (hinj v vpn (List.mem_cons_of_mem vpn hv)
                (List.mem_cons_self vpn rest) hgv hg he)
              (fun hc => hvpn_rest (hc ▸ hv))
          · exact pos
        have hinj' : ∀ v w, v ∈ rest → w ∈ rest →
            exitGuard (pt.setEntry vpn (pt.paAt vpn) 0) v = true →
            exitGuard (pt.setEntry vpn (pt.paAt vpn) 0) w = true →
            (pt.setEntry vpn (pt.paAt vpn) 0).paAt v / PAGESIZE
              = (pt.setEntry vpn (pt.paAt vpn) 0).paAt w / PAGESIZE → v = w := by
          intro v w hv hw hgv hgw he
          rw [(hsame v hv).1] at hgv
          rw [(hsame w hw).1] at hgw
          rw [(hsame v hv).2, (hsame w hw).2] at he
          exact hinj v w (List.mem_cons_of_mem vpn hv)
            (List.mem_cons_of_mem vpn hw) hgv hgw he
        rw [ih (kfree st (pt.paAt vpn)) (pt.setEntry vpn (pt.paAt vpn) 0)
          hnd' hval' hinj' q]
        by_cases hq : q = pt.paAt vpn / PAGESIZE
        · -- q is the page freed at this step
          have hnorest : ¬∃ v, v ∈ rest
              ∧ exitGuard (pt.setEntry vpn (pt.paAt vpn) 0) v = true
              ∧ (pt.setEntry vpn (pt.paAt vpn) 0).paAt v / PAGESIZE = q := by
            rintro ⟨v, hv, hgv, hev⟩
            rw [(hsame v hv).1] at hgv
            rw [(hsame v hv).2] at hev
            exact hvpn_rest
              ((hinj v vpn (List.mem_cons_of_mem vpn hv)
                (List.mem_cons_self vpn rest) hgv hg (hev.trans hq)) ▸ hv)
          rw [if_neg hnorest, hkf, if_pos hq,
              if_pos ⟨vpn, List.mem_cons_self vpn rest, hg, hq.symm⟩]
        · -- q is untouched at this step
          have hiff : (∃ v, v ∈ rest
              ∧ exitGuard (pt.setEntry vpn (pt.paAt vpn) 0) v = true
              ∧ (pt.setEntry vpn (pt.paAt vpn) 0).paAt v / PAGESIZE = q)
              ↔ (∃ v, v ∈ vpn :: rest ∧ exitGuard pt v = true
                  ∧ pt.paAt v / PAGESIZE = q) := by
            constructor
            · rintro ⟨v, hv, hgv, hev⟩
              rw [(hsame v hv).1] at hgv
              rw [(hsame v hv).2] at hev
              exact ⟨v, List.mem_cons_of_mem vpn hv, hgv, hev⟩
            · rintro ⟨v, hv, hgv, hev⟩
              rcases List.mem_cons.mp hv with rfl | hv'
              · exact absurd hev.symm hq
              · refine ⟨v, hv', ?_, ?_⟩
                · rw [(hsame v hv').1]; exact hgv
                · rw [(hsame v hv').2]; exact hev
          rw [hkf, if_neg hq]
          by_cases hex : ∃ v, v ∈ vpn :: rest ∧ exitGuard pt v = true
              ∧ pt.paAt v / PAGESIZE = q
          · rw [if_pos (hiff.mpr hex), if_pos hex]
          · rw [if_neg (fun hc => hex (hiff.mp hc)), if_neg hex]
      · rw [if_neg hg]
        have hiff : (∃ v, v ∈ rest ∧ exitGuard pt v = true
            ∧ pt.paAt v / PAGESIZE = q)
            ↔ (∃ v, v ∈ vpn :: rest ∧ exitGuard pt v = true
                ∧ pt.paAt v / PAGESIZE = q) := by
          constructor
          · rintro ⟨v, hv, hgv, hev⟩
            exact ⟨v, List.mem_cons_of_mem vpn hv, hgv, hev⟩
          · rintro ⟨v, hv, hgv, hev⟩
            rcases List.mem_cons.mp hv with rfl | hv'
            · exact absurd hgv hg
            · exact ⟨v, hv', hgv, hev⟩
        rw [ih st pt hnd'
          (fun v hv => hval v (List.mem_cons_of_mem vpn hv))
          (fun v w hv hw => hinj v w (List.mem_cons_of_mem vpn hv)
            (List.mem_cons_of_mem vpn hw)) q]
        by_cases hex : ∃ v, v ∈ vpn :: rest ∧ exitGuard pt v = true
            ∧ pt.paAt v / PAGESIZE = q
        · rw [if_pos (hiff.mpr hex), if_pos hex]
        · rw [if_neg (fun hc => hex (hiff.mp hc)), if_neg hex]

/-- The user-page loop leaves the table's structure pages alone. -/
theorem freeUserLoop_struct :
    ∀ (l : List Nat) (st : KState) (pt : PageTable),
      (freeUserLoop l st pt).1.ptPages = pt.ptPages
      ∧ (freeUserLoop l st pt).1.top = pt.top := by
  intro l
  induction l with
  | nil => intro st pt; exact ⟨rfl, rfl⟩
  | cons vpn rest ih =>
      intro st pt
      rw [freeUserLoop]
      split
      · exact ih _ _
      · exact ih _ _

/-- Effect of the structure walk (`ptiter` loop) on the counts: each listed
page-table page loses one reference. -/
theorem foldl_kfree_physpages :
    ∀ (l : List Nat) (st : KState), l.Nodup →
      (∀ p ∈ l, p ≠ 0 ∧ p < NPAGES) →
      ∀ q, (l.foldl (fun s pn => kfree s (pn * PAGESIZE)) st).physpages q
        = if q ∈ l then st.physpages q - 1 else st.physpages q := by
  intro l
  induction l with
  | nil =>
      intro st _ _ q
      rw [if_neg (by simp)]
      rfl
  | cons p rest ih =>
      intro st hnd hval q
      have hprest : p ∉ rest := (List.nodup_cons.mp hnd).1
      obtain ⟨hz, hm⟩ := hval p (List.mem_cons_self p rest)
      have hpz : p * PAGESIZE ≠ 0 := by
        simp only [PAGESIZE]
        omega
      have hpm : p * PAGESIZE < MEMSIZE_PHYSICAL := by
        simp only [PAGESIZE, MEMSIZE_PHYSICAL]
        simp only [NPAGES, MEMSIZE_PHYSICAL, PAGESIZE] at hm
        omega
      have hdiv : p * PAGESIZE / PAGESIZE = p :=
        Nat.mul_div_cancel p (by norm_num [PAGESIZE])
      have hkf : ∀ r, (kfree st (p * PAGESIZE)).physpages r
          = if r = p then st.physpages r - 1 else st.physpages r := by
        intro r
        rw [kfree_valid st (p * PAGESIZE) hpz hpm (Nat.mul_mod_left p PAGESIZE) r,
            hdiv]
      rw [List.foldl_cons,
          ih (kfree st (p * PAGESIZE)) (List.nodup_cons.mp hnd).2
            (fun p' hp' => hval p' (List.mem_cons_of_mem p hp')) q]
      by_cases hq : q = p
      · rw [if_neg (hq ▸ hprest), hkf, if_pos hq,
            if_pos (List.mem_cons.mpr (Or.inl hq))]
      · rw [hkf, if_neg hq]
        by_cases hqr : q ∈ rest
        · rw [if_pos hqr, if_pos (List.mem_cons.mpr (Or.inr hqr))]
        · rw [if_neg hqr,
              if_neg (fun hc => (List.mem_cons.mp hc).elim hq hqr)]

theorem mem_userVpns (v : Nat) : v ∈ userVpns ↔ 256 ≤ v ∧ v < 768 := by
  unfold userVpns
  rw [List.mem_range'_1]
  norm_num [PROC_START_ADDR, MEMSIZE_VIRTUAL, PAGESIZE]

theorem userVpns_nodup : userVpns.Nodup := by
  unfold userVpns
  exact List.nodup_range' _ _

theorem userVpns_not_console (v : Nat) (h : v ∈ userVpns) :
    (v * PAGESIZE != CONSOLE_ADDR) = true := by
  rw [mem_userVpns] at h
  simp only [bne_iff_ne, ne_eq]
  intro he
  rw [PAGESIZE] at he
  rw [CONSOLE_ADDR] at he
  omega

theorem exitGuard_userVpn (pt : PageTable) (v : Nat) (hv : v ∈ userVpns) :
    exitGuard pt v = (pt.presentAt v && pt.userAt v) := by
  unfold exitGuard
  rw [userVpns_not_console v hv, Bool.and_true]

/-- **C4**: `sys_exit` decrements by one the reference count of every
physical page mapped present-and-user in the exiting process's user region,
frees every intermediate page-table page and the top-level table (their
counts drop by one, from 1 to 0 in a real run), nulls the descriptor's
address-space handle and marks it FREE, leaves every other slot and every
other reference count untouched, and the dispatcher transfers control to the
scheduler instead of returning to the caller.  (Hypotheses: the exiting
process owns `pt`; mapped user pages are valid distinct allocated pages; the
structure pages are valid, distinct, and not aliased by user mappings.) -/
theorem C4_exit_spec (st : KState) (pt : PageTable)
    (hpt : (st.ptable st.currentPid).pagetable = some pt)
    (huser : ∀ v ∈ userVpns, pt.presentAt v = true → pt.userAt v = true →
      pt.paAt v ≠ 0 ∧ pt.paAt v < MEMSIZE_PHYSICAL ∧ pt.paAt v % PAGESIZE = 0
      ∧ 0 < st.physpages (pt.paAt v / PAGESIZE))
    (hinj : ∀ v w, v ∈ userVpns → w ∈ userVpns →
      pt.presentAt v = true → pt.userAt v = true →
      pt.presentAt w = true → pt.userAt w = true →
      pt.paAt v / PAGESIZE = pt.paAt w / PAGESIZE → v = w)
    (hstruct : ∀ p ∈ pt.top :: pt.ptPages, p ≠ 0 ∧ p < NPAGES)
    (hsnodup : (pt.top :: pt.ptPages).Nodup)
    (hdisj : ∀ v ∈ userVpns, pt.presentAt v = true → pt.userAt v = true →
      pt.paAt v / PAGESIZE ∉ pt.top :: pt.ptPages) :
    (∀ v ∈ userVpns, pt.presentAt v = true → pt.userAt v = true →
      (sys_exit st).physpages (pt.paAt v / PAGESIZE)
        = st.physpages (pt.paAt v / PAGESIZE) - 1)
    ∧ (∀ p ∈ pt.top :: pt.ptPages,
        (sys_exit st).physpages p = st.physpages p - 1)
    ∧ ((sys_exit st).ptable st.currentPid).state = PState.free
    ∧ ((sys_exit st).ptable st.currentPid).pagetable = none
    ∧ (∀ j, j ≠ st.currentPid → (sys_exit st).ptable j = st.ptable j)
    ∧ (∀ q, (∀ v ∈ userVpns, pt.presentAt v = true → pt.userAt v = true →
          pt.paAt v / PAGESIZE ≠ q) → q ∉ pt.top :: pt.ptPages →
        (sys_exit st).physpages q = st.physpages q)
    ∧ syscallStep st SYSCALL_EXIT 0 = (Action.sched, sys_exit st) := by
  -- the state after the three teardown phases
  have hphys : ∀ q, (sys_exit st).physpages q
      = (kfree (freePtPages (freeUserLoop userVpns st pt).2
          (freeUserLoop userVpns st pt).1)
         ((freeUserLoop userVpns st pt).1.top * PAGESIZE)).physpages q := by
    intro q
    unfold sys_exit
    rw [hpt]
    rcases hu : freeUserLoop userVpns st pt with ⟨pt1, st1⟩
    simp [KState.setProc, hu]
  have hval' : ∀ v ∈ userVpns, exitGuard pt v = true →
      pt.paAt v ≠ 0 ∧ pt.paAt v < MEMSIZE_PHYSICAL
      ∧ pt.paAt v % PAGESIZE = 0
      ∧ 0 < st.physpages (pt.paAt v / PAGESIZE) := by
    intro v hv hg
    rw [exitGuard_userVpn pt v hv, Bool.and_eq_true] at hg
    exact huser v hv hg.1 hg.2
  have hinj' : ∀ v w, v ∈ userVpns → w ∈ userVpns →
      exitGuard pt v = true → exitGuard pt w = true →
      pt.paAt v / PAGESIZE = pt.paAt w / PAGESIZE → v = w := by
    intro v w hv hw hgv hgw
    rw [exitGuard_userVpn pt v hv, Bool.and_eq_true] at hgv
    rw [exitGuard_userVpn pt w hw, Bool.and_eq_true] at hgw
    exact hinj v w hv hw hgv.1 hgv.2 hgw.1 hgw.2
  have hu1 : ∀ q, (freeUserLoop userVpns st pt).2.physpages q =
      if ∃ v, v ∈ userVpns ∧ exitGuard pt v = true
          ∧ pt.paAt v / PAGESIZE = q
      then st.physpages q - 1 else st.physpages q :=
    freeUserLoop_physpages userVpns st pt userVpns_nodup hval' hinj'
  have hstru := freeUserLoop_struct userVpns st pt
  have htopz := (hstruct pt.top (List.mem_cons_self _ _)).1
  have htopm := (hstruct pt.top (List.mem_cons_self _ _)).2
  have hp2 : ∀ q, (freePtPages (freeUserLoop userVpns st pt).2
      (freeUserLoop userVpns st pt).1).physpages q
      = if q ∈ pt.ptPages
        then (freeUserLoop userVpns st pt).2.physpages q - 1
        else (freeUserLoop userVpns st pt).2.physpages q := by
    intro q
    unfold freePtPages
    rw [hstru.1]
    exact foldl_kfree_physpages pt.ptPages _ (List.nodup_cons.mp hsnodup).2
      (fun p hp => hstruct p (List.mem_cons_of_mem _ hp)) q
  have htz : pt.top * PAGESIZE ≠ 0 := by
    simp only [PAGESIZE]; omega
  have htm : pt.top * PAGESIZE < MEMSIZE_PHYSICAL := by
    simp only [PAGESIZE, MEMSIZE_PHYSICAL]
    simp only [NPAGES, MEMSIZE_PHYSICAL, PAGESIZE] at htopm
    omega
  have htdiv : pt.top * PAGESIZE / PAGESIZE = pt.top :=
    Nat.mul_div_cancel _ (by norm_num [PAGESIZE])
  have hp3 : ∀ q, (sys_exit st).physpages q
      = if q = pt.top
        then (freePtPages (freeUserLoop userVpns st pt).2
              (freeUserLoop userVpns st pt).1).physpages q - 1
        else (freePtPages (freeUserLoop userVpns st pt).2
              (freeUserLoop userVpns st pt).1).physpages q := by
    intro q
    rw [hphys q, hstru.2,
        kfree_valid _ _ htz htm (Nat.mul_mod_left _ _) q, htdiv]
  refine ⟨?_, ?_, (sys_exit_at st pt hpt).1, (sys_exit_at st pt hpt).2,
    fun j hj => sys_exit_ptable_ne st j hj, ?_, rfl⟩
  · -- user pages
    intro v hv hp hu
    have hg : exitGuard pt v = true := by
      rw [exitGuard_userVpn pt v hv, Bool.and_eq_true]; exact ⟨hp, hu⟩
    have hnotin := hdisj v hv hp hu
    rw [hp3, if_neg (fun hc => hnotin (List.mem_cons.mpr (Or.inl hc))),
        hp2, if_neg (fun hc => hnotin (List.mem_cons_of_mem _ hc)),
        hu1, if_pos ⟨v, hv, hg, rfl⟩]
  · -- structure pages
    intro p hp
    have hno : ¬∃ v, v ∈ userVpns ∧ exitGuard pt v = true
        ∧ pt.paAt v / PAGESIZE = p := by
      rintro ⟨v, hv, hg, he⟩
      rw [exitGuard_userVpn pt v hv, Bool.and_eq_true] at hg
      exact hdisj v hv hg.1 hg.2 (he ▸ hp)
    rcases List.mem_cons.mp hp with rfl | hpp
    · rw [hp3, if_pos rfl, hp2,
          if_neg (List.nodup_cons.mp hsnodup).1, hu1, if_neg hno]
    · rw [hp3,
          if_neg (fun hc => (List.nodup_cons.mp hsnodup).1
            (by rw [← hc]; exact hpp)),
          hp2, if_pos hpp, hu1, if_neg hno]
  · -- untouched pages
    intro q hnu hns
    have hno : ¬∃ v, v ∈ userVpns ∧ exitGuard pt v = true
        ∧ pt.paAt v / PAGESIZE = q := by
      rintro ⟨v, hv, hg, he⟩
      rw [exitGuard_userVpn pt v hv, Bool.and_eq_true] at hg
      exact hnu v hv hg.1 hg.2 he
    rw [hp3, if_neg (fun hc => hns (List.mem_cons.mpr (Or.inl hc))),
        hp2, if_neg (fun hc => hns (List.mem_cons_of_mem _ hc)),
        hu1, if_neg hno]

/-- Witness for C4 at `stW`: exiting frees the stack page 305 and the
top-level table page 300, and leaves slot 1 FREE with a null handle. -/
theorem C4_exit_spec_witness :
    (sys_exit stW).physpages 305 = stW.physpages 305 - 1
    ∧ (sys_exit stW).physpages 300 = stW.physpages 300 - 1
    ∧ ((sys_exit stW).ptable 1).state = PState.free
    ∧ ((sys_exit stW).ptable 1).pagetable = none := by
  have hpres : ∀ u, ptW.presentAt u = true → u = 767 ∨ u = 256 := by
    intro u hu
    by_contra hne
    push_neg at hne
    simp only [ptW, PageTable.presentAt] at hu
    rw [if_neg hne.1, if_neg hne.2] at hu
    cases hu
  have hinj : ∀ v w, v ∈ userVpns → w ∈ userVpns →
      ptW.presentAt v = true → ptW.userAt v = true →
      ptW.presentAt w = true → ptW.userAt w = true →
      ptW.paAt v / PAGESIZE = ptW.paAt w / PAGESIZE → v = w := by
    intro v w _ _ hpv _ hpw _ he
    rcases hpres v hpv with rfl | rfl <;> rcases hpres w hpw with rfl | rfl
    · rfl
    · exact absurd he (by decide)
    · exact absurd he (by decide)
    · rfl
  have h := C4_exit_spec stW ptW rfl (by decide) hinj (by decide) (by decide)
    (by decide)
  refine ⟨?_, ?_, h.2.2.1, h.2.2.2.1⟩
  · have hv := h.1 767 (by decide) (by decide) (by decide)
    rw [show ptW.paAt 767 / PAGESIZE = 305 by decide] at hv
    exact hv
  · exact h.2.1 300 (List.mem_cons_self _ _)

/-! ## `syscall_fork`'s failure path: claim C1

In `stLeak` exactly five allocatable pages (256–260) are free and the parent's
only user mapping is its stack page (vpn 767, region 1).  Forking allocates
the child's top-level table (256), the L3/L2/region-0 L1 pages (257–259) while
copying the kernel region, and the copy of the stack page (260); mapping that
copy then needs a region-1 L1 page, `kalloc` fails, and `syscall_fork` tears
the child down and returns −1.  The teardown frees pages 256–259 but *not*
page 260: the freshly allocated copy was never entered into the child's table,
and the failure path `if (r != 0) { free_pagetable_and_pages(free_proc);
return -1; }` (kernel.cc lines 552–555) — unlike the corresponding path of
`syscall_page_alloc` (lines 452–456) — never calls `kfree(new_page)`.  Its
reference count stays 1 with no mapping anywhere, so the fork failure is NOT
side-effect free: one physical page leaks. -/

/-- **C1 (code bug)**: on the failing input `stLeak`, fork fails with −1 and
unwinds the child slot, yet page 260's reference count goes from 0 to 1 —
the parent's and the process table's visible state is restored, but a
physical-page reference count is not. -/
theorem C1_fork_unwind_leak :
    (syscall_fork stLeak).1 = -1
    ∧ stLeak.physpages 260 = 0
    ∧ (syscall_fork stLeak).2.physpages 260 = 1
    ∧ ((syscall_fork stLeak).2.ptable 2).state = PState.free
    ∧ ((syscall_fork stLeak).2.ptable 2).pagetable.isNone = true
    ∧ (syscall_fork stLeak).2.physpages 256 = 0
    ∧ (syscall_fork stLeak).2.physpages 259 = 0 :=
  ⟨by decide, by decide, by decide, by decide, by decide, by decide, by decide⟩

/-! ## `syscall_fork`'s success path: claim C2 -/

theorem stepOK_refl (st : KState) : StepOK st st :=
  ⟨fun _ _ => ⟨rfl, rfl⟩, fun _ => le_rfl⟩

theorem stepOK_trans {s1 s2 s3 : KState} (h12 : StepOK s1 s2)
    (h23 : StepOK s2 s3) : StepOK s1 s3 := by
  refine ⟨fun q hq => ?_, fun q => le_trans (h12.2 q) (h23.2 q)⟩
  obtain ⟨hc, hm⟩ := h12.1 q hq
  obtain ⟨hc', hm'⟩ := h23.1 q (by rw [hc]; exact hq)
  exact ⟨hc'.trans hc, hm'.trans hm⟩

/-- A successful `kalloc` followed by any overwrite of the fresh page is a
`StepOK` step. -/
theorem kalloc_memset_stepOK (st : KState) (npa : Nat) (st1 : KState)
    (hk : kalloc st PAGESIZE = (some npa, st1)) (c : Nat) :
    StepOK st (st1.memsetPage (npa / PAGESIZE) c) := by
  have h1 : (kalloc st PAGESIZE).1 = some npa := by rw [hk]
  obtain ⟨_, h0, _⟩ := kalloc_some_facts st PAGESIZE npa le_rfl h1
  have hst1 : st1 = (st.setRef (npa / PAGESIZE)
      (st.physpages (npa / PAGESIZE) + 1)).memsetPage (npa / PAGESIZE) 0xCC := by
    have := kalloc_some_state st PAGESIZE le_rfl npa h1
    rw [hk] at this
    exact (Prod.mk.injEq .. ▸ this).2
  subst hst1
  constructor
  · intro q hq
    have hqne : q ≠ npa / PAGESIZE := by
      intro he; rw [he, h0] at hq; omega
    simp [KState.setRef, KState.memsetPage, if_neg hqne]
  · intro q
    by_cases hq : q = npa / PAGESIZE
    · simp [KState.setRef, KState.memsetPage, hq]
    · simp [KState.setRef, KState.memsetPage, if_neg hq]

theorem kalloc_none_eq (st : KState) (st1 : KState)
    (hk : kalloc st PAGESIZE = (none, st1)) : st1 = st := by
  have h1 : (kalloc st PAGESIZE).1 = none := by rw [hk]
  have := kalloc_none_state st PAGESIZE le_rfl h1
  rw [hk] at this
  exact (Prod.mk.injEq .. ▸ this).2

theorem tryMapL1_stepOK (st : KState) (pt : PageTable) (va pa perm : Nat) :
    StepOK st (tryMapL1 st pt va pa perm).2.2 := by
  unfold tryMapL1
  split
  all_goals split
  case isTrue.h_1 => exact stepOK_refl st
  case isFalse.h_1 => exact stepOK_refl st
  all_goals split
  case isTrue.h_2.h_1 st1 hk =>
    rw [kalloc_none_eq st st1 hk]
    exact stepOK_refl st
  case isFalse.h_2.h_1 st1 hk =>
    rw [kalloc_none_eq st st1 hk]
    exact stepOK_refl st
  case isTrue.h_2.h_2 npa st1 hk =>
    exact kalloc_memset_stepOK st npa st1 hk 0
  case isFalse.h_2.h_2 npa st1 hk =>
    exact kalloc_memset_stepOK st npa st1 hk 0

/-- One `kalloc` step preserves positivity, so `StepOK` composes across it. -/
theorem stepOK_after_kalloc (st : KState) (npa : Nat) (st1 : KState)
    (hk : kalloc st PAGESIZE = (some npa, st1)) (c : Nat) {st2 : KState}
    (hnext : StepOK (st1.memsetPage (npa / PAGESIZE) c) st2) :
    StepOK st st2 :=
  stepOK_trans (kalloc_memset_stepOK st npa st1 hk c) hnext

theorem tryMapL2_stepOK (st : KState) (pt : PageTable) (va pa perm : Nat) :
    StepOK st (tryMapL2 st pt va pa perm).2.2 := by
  unfold tryMapL2
  split
  · exact tryMapL1_stepOK st pt va pa perm
  · split
    case h_1 st1 hk =>
      rw [kalloc_none_eq st st1 hk]
      exact stepOK_refl st
    case h_2 npa st1 hk =>
      exact stepOK_after_kalloc st npa st1 hk 0 (tryMapL1_stepOK _ _ va pa perm)

theorem try_map_stepOK (st : KState) (pt : PageTable) (va pa perm : Nat) :
    StepOK st (try_map st pt va pa perm).2.2 := by
  unfold try_map
  split
  · exact tryMapL2_stepOK st pt va pa perm
  · split
    case h_1 st1 hk =>
      rw [kalloc_none_eq st st1 hk]
      exact stepOK_refl st
    case h_2 npa st1 hk =>
      exact stepOK_after_kalloc st npa st1 hk 0 (tryMapL2_stepOK _ _ va pa perm)

theorem tryMapL1_success_entries (st : KState) (pt : PageTable)
    (va pa perm : Nat) (r : Int) (pt' : PageTable) (st' : KState)
    (h : tryMapL1 st pt va pa perm = (r, pt', st')) (hr : r = 0) :
    ∀ v, pt'.entries v
      = if v = va / PAGESIZE then some (pa, perm) else pt.entries v := by
  subst hr
  unfold tryMapL1 at h
  split at h
  all_goals split at h
  case isTrue.h_1 =>
    injection h with h1 h2
    injection h2 with h2 h3
    rw [← h2]
    intro v
    simp [tryMapLeaf, PageTable.setEntry]
  case isFalse.h_1 =>
    injection h with h1 h2
    injection h2 with h2 h3
    rw [← h2]
    intro v
    simp [tryMapLeaf, PageTable.setEntry]
  all_goals split at h
  case isTrue.h_2.h_1 => injection h with h1 _; cases h1
  case isFalse.h_2.h_1 => injection h with h1 _; cases h1
  case isTrue.h_2.h_2 npa st1 hk =>
    injection h with h1 h2
    injection h2 with h2 h3
    rw [← h2]
    intro v
    simp [tryMapLeaf, PageTable.setEntry]
  case isFalse.h_2.h_2 npa st1 hk =>
    injection h with h1 h2
    injection h2 with h2 h3
    rw [← h2]
    intro v
    simp [tryMapLeaf, PageTable.setEntry]

theorem tryMapL2_success_entries (st : KState) (pt : PageTable)
    (va pa perm : Nat) (r : Int) (pt' : PageTable) (st' : KState)
    (h : tryMapL2 st pt va pa perm = (r, pt', st')) (hr : r = 0) :
    ∀ v, pt'.entries v
      = if v = va / PAGESIZE then some (pa, perm) else pt.entries v := by
  unfold tryMapL2 at h
  split at h
  · exact tryMapL1_success_entries _ _ _ _ _ _ _ _ h hr
  · split at h
    case h_1 => subst hr; injection h with h1 _; cases h1
    case h_2 npa st1 hk =>
      have hres := tryMapL1_success_entries _ _ _ _ _ _ _ _ h hr
      intro v
      exact hres v

theorem try_map_success_entries (st : KState) (pt : PageTable)
    (va pa perm : Nat) (r : Int) (pt' : PageTable) (st' : KState)
    (h : try_map st pt va pa perm = (r, pt', st')) (hr : r = 0) :
    ∀ v, pt'.entries v
      = if v = va / PAGESIZE then some (pa, perm) else pt.entries v := by
  unfold try_map at h
  split at h
  · exact tryMapL2_success_entries _ _ _ _ _ _ _ _ h hr
  · split at h
    case h_1 => subst hr; injection h with h1 _; cases h1
    case h_2 npa st1 hk =>
      have hres := tryMapL2_success_entries _ _ _ _ _ _ _ _ h hr
      intro v
      exact hres v

theorem kalloc_some_effect (st : KState) (npa : Nat) (st1 : KState)
    (hk : kalloc st PAGESIZE = (some npa, st1)) :
    st.physpages (npa / PAGESIZE) = 0
    ∧ st1.physpages (npa / PAGESIZE) = 1
    ∧ (∀ q, q ≠ npa / PAGESIZE →
        st1.physpages q = st.physpages q ∧ st1.pagemem q = st.pagemem q) := by
  have h1 : (kalloc st PAGESIZE).1 = some npa := by rw [hk]
  obtain ⟨_, h0, _⟩ := kalloc_some_facts st PAGESIZE npa le_rfl h1
  have hst1 : st1 = (st.setRef (npa / PAGESIZE)
      (st.physpages (npa / PAGESIZE) + 1)).memsetPage (npa / PAGESIZE) 0xCC := by
    have := kalloc_some_state st PAGESIZE le_rfl npa h1
    rw [hk] at this
    exact (Prod.mk.injEq .. ▸ this).2
  subst hst1
  refine ⟨h0, by simp [KState.setRef, KState.memsetPage, h0], ?_⟩
  intro q hq
  simp [KState.setRef, KState.memsetPage, if_neg hq]

/-- The full success-path specification of fork's user-region walk, relative
to the state at the start of the walk: every present+user+writable mapping of
the parent gets a fresh copy in the child (same virtual page, fresh page,
same contents as the parent's page), every other present+user mapping is
shared with its count bumped by exactly one, everything else is untouched. -/
theorem forkUserLoop_spec (ptP : PageTable) :
    ∀ (l : List Nat) (st : KState) (ptC : PageTable) (ptC' : PageTable)
      (st' : KState),
      forkUserLoop ptP l st ptC = (true, ptC', st') →
      l.Nodup →
      (∀ v ∈ l, presUser ptP v → 0 < st.physpages (ptP.paAt v / PAGESIZE)) →
      (∀ v w, v ∈ l → w ∈ l → presUser ptP v → presUser ptP w →
        ptP.paAt v / PAGESIZE = ptP.paAt w / PAGESIZE → v = w) →
      (∀ v, v ∉ l → ptC'.entries v = ptC.entries v)
      ∧ (∀ v ∈ l,
          (presUser ptP v → copyG ptP v →
            ∃ npa, ptC'.entries v = some (npa, ptP.permAt v)
              ∧ st.physpages (npa / PAGESIZE) = 0
              ∧ st'.physpages (npa / PAGESIZE) = 1
              ∧ st'.pagemem (npa / PAGESIZE)
                  = st.pagemem (ptP.paAt v / PAGESIZE))
          ∧ (presUser ptP v → ¬copyG ptP v →
              ptC'.entries v = some (ptP.paAt v, ptP.permAt v)
              ∧ st'.physpages (ptP.paAt v / PAGESIZE)
                  = st.physpages (ptP.paAt v / PAGESIZE) + 1)
          ∧ (¬presUser ptP v → ptC'.entries v = ptC.entries v))
      ∧ (∀ q, 0 < st.physpages q →
          ((∀ v ∈ l, presUser ptP v → ¬copyG ptP v →
              ptP.paAt v / PAGESIZE ≠ q) →
            st'.physpages q = st.physpages q)
          ∧ st'.pagemem q = st.pagemem q)
      ∧ (∀ q, st.physpages q ≤ st'.physpages q) := by
  intro l
  induction l with
  | nil =>
      intro st ptC ptC' st' h _ _ _
      rw [forkUserLoop] at h
      injection h with h1 h2
      injection h2 with h2 h3
      subst h2; subst h3
      refine ⟨fun v _ => rfl, fun v hv => absurd hv (by simp),
        fun q _ => ⟨fun _ => rfl, rfl⟩, fun q => le_rfl⟩
  | cons vpn rest ih =>
      intro st ptC ptC' st' h hnd hpar hinj
      have hvpn_rest : vpn ∉ rest := (List.nodup_cons.mp hnd).1
      have hnd' : rest.Nodup := (List.nodup_cons.mp hnd).2
      rw [forkUserLoop] at h
      by_cases hsk : (!(ptP.presentAt vpn) || !(ptP.userAt vpn)) = true
      · -- the walk skips this vpn
        rw [if_pos hsk] at h
        have hnp : ¬presUser ptP vpn := by
          rintro ⟨h1, h2⟩
          rw [h1, h2] at hsk
          simp at hsk
        obtain ⟨ih1, ih2, ih3, ih4⟩ := ih st ptC ptC' st' h hnd'
          (fun v hv => hpar v (List.mem_cons_of_mem vpn hv))
          (fun v w hv hw => hinj v w (List.mem_cons_of_mem vpn hv)
            (List.mem_cons_of_mem vpn hw))
        refine ⟨fun v hv => ih1 v (fun hc => hv (List.mem_cons_of_mem vpn hc)),
          ?_, ?_, ih4⟩
        · intro v hv
          rcases List.mem_cons.mp hv with rfl | hv'
          · exact ⟨fun hc => absurd hc hnp, fun hc => absurd hc hnp,
              fun _ => ih1 v hvpn_rest⟩
          · exact ih2 v hv'
        · intro q hq
          refine ⟨fun hcond => (ih3 q hq).1 ?_, (ih3 q hq).2⟩
          intro v hv
          exact hcond v (List.mem_cons_of_mem vpn hv)
      · -- the walk handles this vpn
        rw [if_neg hsk] at h
        have hpu : presUser ptP vpn := by
          cases hp : ptP.presentAt vpn <;> cases hu : ptP.userAt vpn <;>
            simp [presUser, hp, hu] at hsk ⊢
        by_cases hcg : copyG ptP vpn
        · -- copy branch
          have hcg' : PROC_START_ADDR ≤ vpn * PAGESIZE
              ∧ ptP.permAt vpn &&& PTE_U ≠ 0 ∧ ptP.permAt vpn &&& PTE_W ≠ 0
              ∧ vpn * PAGESIZE ≠ CONSOLE_ADDR := hcg
          rw [if_pos hcg'] at h
          rcases hk : kalloc st PAGESIZE with ⟨o, st1⟩
          rw [hk] at h
          cases o with
          | none => simp at h
          | some npa =>
              dsimp only at h
              rcases hm : try_map
                  (st1.copyPage (npa / PAGESIZE) (ptP.paAt vpn / PAGESIZE))
                  ptC (vpn * PAGESIZE) npa (ptP.permAt vpn) with ⟨r, ptC1, st3⟩
              rw [hm] at h
              dsimp only at h
              by_cases hr : r ≠ 0
              · rw [if_pos hr] at h; simp at h
              · rw [if_neg hr] at h
                push_neg at hr
                obtain ⟨hfresh0, hfresh1, hoth⟩ := kalloc_some_effect st npa st1 hk
                have hpa_pos := hpar vpn (List.mem_cons_self vpn rest) hpu
                have hpane : ptP.paAt vpn / PAGESIZE ≠ npa / PAGESIZE := by
                  intro he; rw [he, hfresh0] at hpa_pos; omega
                have hstep := try_map_stepOK
                  (st1.copyPage (npa / PAGESIZE) (ptP.paAt vpn / PAGESIZE))
                  ptC (vpn * PAGESIZE) npa (ptP.permAt vpn)
                rw [hm] at hstep
                dsimp only at hstep
                have hentry := try_map_success_entries _ _ _ _ _ _ _ _ hm hr
                -- counts and contents at the start of the rest of the walk
                have hst3_of_st : ∀ q, 0 < st.physpages q →
                    st3.physpages q = st.physpages q
                    ∧ st3.pagemem q = st.pagemem q := by
                  intro q hq
                  have hqne : q ≠ npa / PAGESIZE := by
                    intro he; rw [he, hfresh0] at hq; omega
                  have h2c : (st1.copyPage (npa / PAGESIZE)
                      (ptP.paAt vpn / PAGESIZE)).physpages q = st.physpages q := by
                    simp [KState.copyPage, (hoth q hqne).1]
                  have h2m : (st1.copyPage (npa / PAGESIZE)
                      (ptP.paAt vpn / PAGESIZE)).pagemem q = st.pagemem q := by
                    simp [KState.copyPage, if_neg hqne, (hoth q hqne).2]
                  have := hstep.1 q (by rw [h2c]; exact hq)
                  exact ⟨this.1.trans h2c, this.2.trans h2m⟩
                have hst3_npa : st3.physpages (npa / PAGESIZE) = 1
                    ∧ st3.pagemem (npa / PAGESIZE)
                        = st.pagemem (ptP.paAt vpn / PAGESIZE) := by
                  have h2c : (st1.copyPage (npa / PAGESIZE)
                      (ptP.paAt vpn / PAGESIZE)).physpages (npa / PAGESIZE)
                      = 1 := by simp [KState.copyPage, hfresh1]
                  have h2m : (st1.copyPage (npa / PAGESIZE)
                      (ptP.paAt vpn / PAGESIZE)).pagemem (npa / PAGESIZE)
                      = st.pagemem (ptP.paAt vpn / PAGESIZE) := by
                    simp [KState.copyPage,
                      (hoth (ptP.paAt vpn / PAGESIZE) hpane).2]
                  have := hstep.1 (npa / PAGESIZE) (by rw [h2c]; omega)
                  exact ⟨this.1.trans h2c, this.2.trans h2m⟩
                have hmono13 : ∀ q, st.physpages q ≤ st3.physpages q := by
                  intro q
                  by_cases hq : 0 < st.physpages q
                  · rw [(hst3_of_st q hq).1]
                  · omega
                obtain ⟨ih1, ih2, ih3, ih4⟩ := ih st3 ptC1 ptC' st' h hnd'
                  (fun v hv hpv => lt_of_lt_of_le
                    (hpar v (List.mem_cons_of_mem vpn hv) hpv)
                    (hmono13 _))
                  (fun v w hv hw => hinj v w (List.mem_cons_of_mem vpn hv)
                    (List.mem_cons_of_mem vpn hw))
                -- positive pages of st that are not shared by `rest` keep
                -- count and contents through the whole loop
                have hframe : ∀ q, 0 < st.physpages q →
                    ((∀ v ∈ vpn :: rest, presUser ptP v → ¬copyG ptP v →
                        ptP.paAt v / PAGESIZE ≠ q) →
                      st'.physpages q = st.physpages q)
                    ∧ st'.pagemem q = st.pagemem q := by
                  intro q hq
                  obtain ⟨h3c, h3m⟩ := hst3_of_st q hq
                  have hq3 : 0 < st3.physpages q := by rw [h3c]; exact hq
                  constructor
                  · intro hcond
                    rw [(ih3 q hq3).1
                      (fun v hv hpv hcv =>
                        hcond v (List.mem_cons_of_mem vpn hv) hpv hcv), h3c]
                  · rw [(ih3 q hq3).2, h3m]
                have hdiv : vpn * PAGESIZE / PAGESIZE = vpn :=
                  Nat.mul_div_cancel _ (by norm_num [PAGESIZE])
                refine ⟨?_, ?_, hframe, fun q => le_trans (hmono13 q) (ih4 q)⟩
                · intro v hv
                  have hvr : v ∉ rest := fun hc =>
                    hv (List.mem_cons_of_mem vpn hc)
                  have hvne : v ≠ vpn := fun hc =>
                    hv (hc ▸ List.mem_cons_self vpn rest)
                  rw [ih1 v hvr, hentry v, hdiv, if_neg hvne]
                · intro v hv
                  rcases List.mem_cons.mp hv with rfl | hv'
                  · -- this vpn: the copy happened
                    refine ⟨?_, fun _ hc => absurd hcg hc,
                      fun hc => absurd hpu hc⟩
                    intro _ _
                    have hq3 : 0 < st3.physpages (npa / PAGESIZE) := by
                      rw [hst3_npa.1]; omega
                    refine ⟨npa, ?_, hfresh0, ?_, ?_⟩
                    · rw [ih1 v hvpn_rest, hentry v, hdiv, if_pos rfl]
                    · have hkeep := (ih3 (npa / PAGESIZE) hq3).1
                        (fun w hw hpw _ he => by
                          have := hpar w (List.mem_cons_of_mem v hw) hpw
                          rw [he, hfresh0] at this
                          omega)
                      rw [hkeep, hst3_npa.1]
                    · rw [(ih3 (npa / PAGESIZE) hq3).2, hst3_npa.2]
                  · -- later vpns: translate the IH's facts from st3 back to st
                    have hpav_pos : presUser ptP v →
                        0 < st.physpages (ptP.paAt v / PAGESIZE) :=
                      fun hpv => hpar v (List.mem_cons_of_mem vpn hv') hpv
                    refine ⟨?_, ?_, ?_⟩
                    · intro hpv hcv
                      obtain ⟨npa', he', hf0', hf1', hm'⟩ :=
                        (ih2 v hv').1 hpv hcv
                      refine ⟨npa', he', ?_, hf1', ?_⟩
                      · by_contra hc
                        have hpos : 0 < st.physpages (npa' / PAGESIZE) := by
                          omega
                        rw [(hst3_of_st _ hpos).1] at hf0'
                        omega
                      · rw [hm', (hst3_of_st _ (hpav_pos hpv)).2]
                    · intro hpv hcv
                      obtain ⟨he', hcnt'⟩ := (ih2 v hv').2.1 hpv hcv
                      rw [hcnt', (hst3_of_st _ (hpav_pos hpv)).1]
                      exact ⟨he', rfl⟩
                    · intro hnp
                      rw [(ih2 v hv').2.2 hnp, hentry v, hdiv,
                          if_neg (show ¬ v = vpn from fun hc => hvpn_rest (hc ▸ hv'))]
        · -- share branch
          have hcg' : ¬(PROC_START_ADDR ≤ vpn * PAGESIZE
              ∧ ptP.permAt vpn &&& PTE_U ≠ 0 ∧ ptP.permAt vpn &&& PTE_W ≠ 0
              ∧ vpn * PAGESIZE ≠ CONSOLE_ADDR) := hcg
          rw [if_neg hcg'] at h
          rcases hm : try_map st ptC (vpn * PAGESIZE) (ptP.paAt vpn)
              (ptP.permAt vpn) with ⟨r, ptC1, st1⟩
          rw [hm] at h
          dsimp only at h
          by_cases hr : r ≠ 0
          · rw [if_pos hr] at h; simp at h
          · rw [if_neg hr] at h
            push_neg at hr
            have hstep := try_map_stepOK st ptC (vpn * PAGESIZE)
              (ptP.paAt vpn) (ptP.permAt vpn)
            rw [hm] at hstep
            dsimp only at hstep
            have hentry := try_map_success_entries _ _ _ _ _ _ _ _ hm hr
            have hdiv : vpn * PAGESIZE / PAGESIZE = vpn :=
              Nat.mul_div_cancel _ (by norm_num [PAGESIZE])
            have hpa_pos := hpar vpn (List.mem_cons_self vpn rest) hpu
            -- the state handed to the rest of the walk
            have hst2c : ∀ q, (st1.setRef (ptP.paAt vpn / PAGESIZE)
                (st1.physpages (ptP.paAt vpn / PAGESIZE) + 1)).physpages q
                = if q = ptP.paAt vpn / PAGESIZE then st1.physpages q + 1
                  else st1.physpages q := by
              intro q
              by_cases hq : q = ptP.paAt vpn / PAGESIZE
              · simp [KState.setRef, hq]
              · simp [KState.setRef, if_neg hq]
            have hst2m : ∀ q, (st1.setRef (ptP.paAt vpn / PAGESIZE)
                (st1.physpages (ptP.paAt vpn / PAGESIZE) + 1)).pagemem q
                = st1.pagemem q := fun q => rfl
            have hmono12 : ∀ q, st.physpages q
                ≤ (st1.setRef (ptP.paAt vpn / PAGESIZE)
                    (st1.physpages (ptP.paAt vpn / PAGESIZE) + 1)).physpages q := by
              intro q
              rw [hst2c q]
              have := hstep.2 q
              split <;> omega
            obtain ⟨ih1, ih2, ih3, ih4⟩ := ih
              (st1.setRef (ptP.paAt vpn / PAGESIZE)
                (st1.physpages (ptP.paAt vpn / PAGESIZE) + 1)) ptC1 ptC' st' h
              hnd'
              (fun v hv hpv => lt_of_lt_of_le
                (hpar v (List.mem_cons_of_mem vpn hv) hpv) (hmono12 _))
              (fun v w hv hw => hinj v w (List.mem_cons_of_mem vpn hv)
                (List.mem_cons_of_mem vpn hw))
            -- facts translating st ↔ the rest-entry state
            have hof : ∀ q, 0 < st.physpages q → q ≠ ptP.paAt vpn / PAGESIZE →
                (st1.setRef (ptP.paAt vpn / PAGESIZE)
                  (st1.physpages (ptP.paAt vpn / PAGESIZE) + 1)).physpages q
                  = st.physpages q := by
              intro q hq hqne
              rw [hst2c q, if_neg hqne]
              exact (hstep.1 q hq).1
            have hofm : ∀ q, 0 < st.physpages q →
                (st1.setRef (ptP.paAt vpn / PAGESIZE)
                  (st1.physpages (ptP.paAt vpn / PAGESIZE) + 1)).pagemem q
                  = st.pagemem q := by
              intro q hq
              rw [hst2m q]
              exact (hstep.1 q hq).2
            refine ⟨?_, ?_, ?_, fun q => le_trans (hmono12 q) (ih4 q)⟩
            · intro v hv
              have hvr : v ∉ rest := fun hc =>
                hv (List.mem_cons_of_mem vpn hc)
              have hvne : v ≠ vpn := fun hc =>
                hv (hc ▸ List.mem_cons_self vpn rest)
              rw [ih1 v hvr, hentry v, hdiv, if_neg hvne]
            · intro v hv
              rcases List.mem_cons.mp hv with rfl | hv'
              · -- this vpn: the page is shared and its count bumped
                refine ⟨fun _ hc => absurd hc hcg, ?_, fun hc => absurd hpu hc⟩
                intro _ _
                constructor
                · rw [ih1 v hvpn_rest, hentry v, hdiv, if_pos rfl]
                · have hq2 : 0 < (st1.setRef (ptP.paAt v / PAGESIZE)
                      (st1.physpages (ptP.paAt v / PAGESIZE) + 1)).physpages
                      (ptP.paAt v / PAGESIZE) := by
                    rw [hst2c, if_pos rfl]
                    omega
                  have hkeep := (ih3 (ptP.paAt v / PAGESIZE) hq2).1
                    (fun w hw hpw _ he =>
                      hvpn_rest ((hinj w v (List.mem_cons_of_mem v hw)
                        (List.mem_cons_self v rest) hpw hpu he) ▸ hw))
                  rw [hkeep, hst2c, if_pos rfl, (hstep.1 _ hpa_pos).1]
              · -- later vpns
                have hpav_pos : presUser ptP v →
                    0 < st.physpages (ptP.paAt v / PAGESIZE) :=
                  fun hpv => hpar v (List.mem_cons_of_mem vpn hv') hpv
                have hpane : presUser ptP v →
                    ptP.paAt v / PAGESIZE ≠ ptP.paAt vpn / PAGESIZE := by
                  intro hpv he
                  exact hvpn_rest ((hinj v vpn (List.mem_cons_of_mem vpn hv')
                    (List.mem_cons_self vpn rest) hpv hpu he) ▸ hv')
                refine ⟨?_, ?_, ?_⟩
                · intro hpv hcv
                  obtain ⟨npa', he', hf0', hf1', hm'⟩ := (ih2 v hv').1 hpv hcv
                  refine ⟨npa', he', ?_, hf1', ?_⟩
                  · by_contra hc
                    have hpos : 0 < st.physpages (npa' / PAGESIZE) := by omega
                    rw [hst2c] at hf0'
                    by_cases he : npa' / PAGESIZE = ptP.paAt vpn / PAGESIZE
                    · rw [if_pos he] at hf0'
                      omega
                    · rw [if_neg he, (hstep.1 _ hpos).1] at hf0'
                      omega
                  · rw [hm', hofm _ (hpav_pos hpv)]
                · intro hpv hcv
                  obtain ⟨he', hcnt'⟩ := (ih2 v hv').2.1 hpv hcv
                  rw [hcnt', hof _ (hpav_pos hpv) (hpane hpv)]
                  exact ⟨he', rfl⟩
                · intro hnp
                  rw [(ih2 v hv').2.2 hnp, hentry v, hdiv,
                      if_neg (show ¬ v = vpn from fun hc => hvpn_rest (hc ▸ hv'))]
            · -- frame
              intro q hq
              constructor
              · intro hcond
                have hqne : q ≠ ptP.paAt vpn / PAGESIZE := by
                  intro he
                  exact hcond vpn (List.mem_cons_self vpn rest) hpu hcg he.symm
                have hq2 : 0 < (st1.setRef (ptP.paAt vpn / PAGESIZE)
                    (st1.physpages (ptP.paAt vpn / PAGESIZE) + 1)).physpages q := by
                  have := hmono12 q; omega
                rw [(ih3 q hq2).1 (fun w hw hpw hcw he =>
                    hcond w (List.mem_cons_of_mem vpn hw) hpw hcw he),
                  hof q hq hqne]
              · have hq2 : 0 < (st1.setRef (ptP.paAt vpn / PAGESIZE)
                    (st1.physpages (ptP.paAt vpn / PAGESIZE) + 1)).physpages q := by
                  have := hmono12 q; omega
                rw [(ih3 q hq2).2, hofm q hq]

/-- `List.find?` over `range'` returns the first index satisfying `p`. -/
theorem find_range_first (p : Nat → Bool) :
    ∀ (n s i : Nat), (List.range' s n).find? p = some i →
      s ≤ i ∧ i < s + n ∧ p i = true ∧ ∀ j, s ≤ j → j < i → p j = false := by
  intro n
  induction n with
  | zero =>
      intro s i h
      simp [List.range'] at h
  | succ m ih =>
      intro s i h
      rw [List.range'_succ] at h
      by_cases hp : p s = true
      · rw [List.find?_cons_of_pos _ hp] at h
        injection h with h
        subst h
        exact ⟨le_rfl, by omega, hp, fun j h1 h2 => absurd h1 (by omega)⟩
      · rw [List.find?_cons_of_neg _ hp] at h
        obtain ⟨h1, h2, h3, h4⟩ := ih (s + 1) i h
        refine ⟨by omega, by omega, h3, ?_⟩
        intro j hj1 hj2
        rcases Nat.eq_or_lt_of_le hj1 with he | hlt
        · rw [← he]
          cases h' : p s
          · rfl
          · exact absurd h' hp
        · exact h4 j hlt hj2

/-- `forkFindFree` returns the lowest-index FREE slot above 0 when it finds
one. -/
theorem forkFindFree_first (st : KState) (hne : forkFindFree st ≠ 0) :
    1 ≤ forkFindFree st ∧ forkFindFree st < MAXNPROC
    ∧ (st.ptable (forkFindFree st)).state = PState.free
    ∧ ∀ j, 1 ≤ j → j < forkFindFree st →
        (st.ptable j).state ≠ PState.free := by
  rcases hf : (List.range' 1 (MAXNPROC - 1)).find?
      (fun i => (st.ptable i).state == PState.free) with _ | i
  · unfold forkFindFree at hne
    rw [hf] at hne
    simp at hne
  · have heq : forkFindFree st = i := by
      unfold forkFindFree
      rw [hf]
    obtain ⟨h1, h2, h3, h4⟩ := find_range_first _ _ _ _ hf
    rw [heq]
    refine ⟨h1, by simp only [MAXNPROC] at h2 ⊢; omega, eq_of_beq h3, ?_⟩
    intro j hj1 hj2 hcontra
    have hfalse := h4 j hj1 hj2
    rw [hcontra] at hfalse
    simp at hfalse

/-- `setProc` leaves the physical-memory side of the state untouched. -/
theorem setProc_stepOK (st : KState) (i : Nat) (p : Proc) :
    StepOK st (st.setProc i p) :=
  ⟨fun _ _ => ⟨rfl, rfl⟩, fun _ => le_rfl⟩

/-- Allocating the child's top-level table is a `StepOK` step. -/
theorem kalloc_pagetable_stepOK (st : KState) :
    StepOK st (kalloc_pagetable st).2 := by
  unfold kalloc_pagetable
  split
  case h_1 st1 hk =>
    rw [kalloc_none_eq st st1 hk]
    exact stepOK_refl st
  case h_2 pa st1 hk =>
    exact kalloc_memset_stepOK st pa st1 hk 0

/-- The kernel-region copy loop of fork only allocates fresh intermediate
pages: it is a `StepOK` step of the physical-memory state. -/
theorem forkKernelLoop_stepOK :
    ∀ (l : List Nat) (st : KState) (pt : PageTable),
      StepOK st (forkKernelLoop l st pt).2.2 := by
  intro l
  induction l with
  | nil =>
      intro st pt
      rw [forkKernelLoop]
      exact stepOK_refl st
  | cons vpn rest ih =>
      intro st pt
      rw [forkKernelLoop]
      by_cases hsk : kernelPerm (vpn * PAGESIZE) &&& PTE_P = 0
      · rw [if_pos hsk]
        exact ih st pt
      · rw [if_neg hsk]
        rcases hm : try_map st pt (vpn * PAGESIZE) (vpn * PAGESIZE)
            (if vpn * PAGESIZE ≠ CONSOLE_ADDR then
              clearU (kernelPerm (vpn * PAGESIZE))
             else kernelPerm (vpn * PAGESIZE)) with ⟨r, pt1, st1⟩
        have hstep := try_map_stepOK st pt (vpn * PAGESIZE) (vpn * PAGESIZE)
            (if vpn * PAGESIZE ≠ CONSOLE_ADDR then
              clearU (kernelPerm (vpn * PAGESIZE))
             else kernelPerm (vpn * PAGESIZE))
        rw [hm] at hstep
        dsimp only at hstep
        dsimp only
        by_cases hr : r ≠ 0
        · rw [if_pos hr]
          exact hstep
        · rw [if_neg hr]
          exact stepOK_trans hstep (ih st1 pt1)

/-- C2: for every successful FORK — from any state whose current process owns
page table `ptP`, whose mapped user pages have positive reference counts, and
whose distinct mapped user vpns hold distinct pages (true of every reachable
state) — the child occupies the lowest-index FREE slot above 0; each of the
parent's present, user-accessible, writable, non-console user mappings is
mapped in the child at the same virtual address to a freshly allocated
distinct physical page whose contents equal the parent's page at fork time;
every other present user mapping is mapped to the same physical page with its
reference count incremented by one; the child's registers equal the parent's
except the return-value register, which is 0, while the parent receives the
child's pid; and the child is RUNNABLE. -/
theorem C2_fork_spec (st : KState) (ptP : PageTable)
    (hpt : (st.ptable st.currentPid).pagetable = some ptP)
    (hpar : ∀ v ∈ userVpns, presUser ptP v →
      0 < st.physpages (ptP.paAt v / PAGESIZE))
    (hinj : ∀ v ∈ userVpns, ∀ w ∈ userVpns, presUser ptP v → presUser ptP w →
      ptP.paAt v / PAGESIZE = ptP.paAt w / PAGESIZE → v = w)
    (hok : (syscall_fork st).1 ≠ -1) :
    forkSpec st ptP := by
  unfold forkSpec
  rcases hres : syscall_fork st with ⟨rv, sf⟩
  rw [hres] at hok
  dsimp only at hok ⊢
  unfold syscall_fork at hres
  split at hres
  · -- no free slot: fork fails, contradicting success
    injection hres with h1 _
    exact absurd h1.symm hok
  · rename_i hi0
    split at hres
    · -- "no page table" arm is ruled out by `hpt`
      rename_i heqpt
      rw [hpt] at heqpt
      cases heqpt
    · rename_i ptP' heqpt
      rw [hpt] at heqpt
      injection heqpt with he
      subst he
      split at hres
      · -- top-level table allocation failed: fork fails
        rename_i st1 heqkp
        injection hres with h1 _
        exact absurd h1.symm hok
      · rename_i ptC st1 heqkp
        split at hres
        · -- kernel-region copy failed: fork fails
          rename_i ptC1 st2 heqkl
          injection hres with h1 _
          exact absurd h1.symm hok
        · rename_i ptC1 st2 heqkl
          split at hres
          · -- user-region copy failed: fork fails
            rename_i ptC2 st3 hequl
            injection hres with h1 _
            exact absurd h1.symm hok
          · rename_i ptC2 st3 hequl
            injection hres with h1 h2
            obtain ⟨hge1, hltN, hfree, hlowest⟩ := forkFindFree_first st hi0
            -- physical memory evolves by StepOK up to the user walk
            have hs1 : StepOK (st.setProc (forkFindFree st)
                { st.ptable (forkFindFree st) with regs := initRegs }) st1 := by
              have hkp := kalloc_pagetable_stepOK (st.setProc (forkFindFree st)
                { st.ptable (forkFindFree st) with regs := initRegs })
              rw [heqkp] at hkp
              exact hkp
            have hs2 : StepOK st1 st2 := by
              have hkl := forkKernelLoop_stepOK kernelVpns st1 ptC
              rw [heqkl] at hkl
              exact hkl
            have hstep02 : StepOK st st2 :=
              stepOK_trans (stepOK_trans (setProc_stepOK st _ _) hs1) hs2
            have hnd : userVpns.Nodup := by
              unfold userVpns
              exact List.nodup_range' _ _
            obtain ⟨sp1, sp2, sp3, sp4⟩ :=
              forkUserLoop_spec ptP userVpns st2 ptC1 ptC2 st3 hequl hnd
                (fun v hv hp =>
                  lt_of_lt_of_le (hpar v hv hp) (hstep02.2 _))
                (fun v w hv hw => hinj v hv w hw)
            refine ⟨forkFindFree st, ptC2, h1.symm, hge1, hltN, hfree,
              hlowest, ?_, ?_, ?_, ?_⟩
            · rw [← h2]
              simp [KState.setProc]
            · rw [← h2]
              simp [KState.setProc]
            · rw [← h2]
              simp [KState.setProc]
            · intro v hv
              constructor
              · intro hp hc
                obtain ⟨npa, he', hf0, hf1, hm'⟩ := (sp2 v hv).1 hp hc
                have hpp2 : 0 < st2.physpages (ptP.paAt v / PAGESIZE) :=
                  lt_of_lt_of_le (hpar v hv hp) (hstep02.2 _)
                refine ⟨npa, he', ?_, ?_, ?_, ?_⟩
                · intro heq'
                  rw [heq'] at hf0
                  omega
                · have := hstep02.2 (npa / PAGESIZE)
                  omega
                · rw [← h2]
                  exact hf1
                · rw [← h2]
                  show st3.pagemem (npa / PAGESIZE)
                    = st.pagemem (ptP.paAt v / PAGESIZE)
                  rw [hm', (hstep02.1 _ (hpar v hv hp)).2]
              · intro hp hc
                obtain ⟨he', hcnt⟩ := (sp2 v hv).2.1 hp hc
                refine ⟨he', ?_⟩
                rw [← h2]
                show st3.physpages (ptP.paAt v / PAGESIZE)
                  = st.physpages (ptP.paAt v / PAGESIZE) + 1
                rw [hcnt, (hstep02.1 _ (hpar v hv hp)).1]

/-- `ptW` has exactly two present user mappings: vpn 767 and vpn 256. -/
theorem ptW_presUser_cases (v : Nat) (h : presUser ptW v) :
    v = 767 ∨ v = 256 := by
  by_contra hc
  push_neg at hc
  obtain ⟨h1, h2⟩ := hc
  have he : ptW.entries v = none := by
    show (if v = 767 then some (305 * PAGESIZE, PTE_P + PTE_W + PTE_U)
          else if v = 256 then some (306 * PAGESIZE, PTE_P + PTE_U)
          else none) = none
    rw [if_neg h1, if_neg h2]
  have hpres := h.1
  unfold PageTable.presentAt at hpres
  rw [he] at hpres
  cases hpres

theorem C2_fork_spec_witness :
    ((stW.ptable stW.currentPid).pagetable = some ptW
      ∧ (∀ v ∈ userVpns, presUser ptW v →
          0 < stW.physpages (ptW.paAt v / PAGESIZE))
      ∧ (∀ v ∈ userVpns, ∀ w ∈ userVpns, presUser ptW v → presUser ptW w →
          ptW.paAt v / PAGESIZE = ptW.paAt w / PAGESIZE → v = w)
      ∧ (syscall_fork stW).1 ≠ -1)
    ∧ forkSpec stW ptW := by
  have hpt : (stW.ptable stW.currentPid).pagetable = some ptW := rfl
  have hpar : ∀ v ∈ userVpns, presUser ptW v →
      0 < stW.physpages (ptW.paAt v / PAGESIZE) := by
    intro v _ hp
    rcases ptW_presUser_cases v hp with rfl | rfl
    · decide
    · decide
  have hinj : ∀ v ∈ userVpns, ∀ w ∈ userVpns, presUser ptW v →
      presUser ptW w → ptW.paAt v / PAGESIZE = ptW.paAt w / PAGESIZE →
      v = w := by
    intro v _ w _ hpv hpw he
    rcases ptW_presUser_cases v hpv with rfl | rfl <;>
      rcases ptW_presUser_cases w hpw with rfl | rfl
    · rfl
    · exact absurd he (by decide)
    · exact absurd he (by decide)
    · rfl
  have hok : (syscall_fork stW).1 ≠ -1 := by decide
  exact ⟨⟨hpt, hpar, hinj, hok⟩, C2_fork_spec stW ptW hpt hpar hinj hok⟩

end Weensy
